import Mathlib

/-!
Verification development for the OracleMint repository.

This file gives a shallow embedding, in Lean 4, of the core subsystems of the
repository — the name normalizer (`src/lib/utils/card-names.ts`), the card
identity resolver (`card-resolver` module), the rate-limited Scryfall client
(`scryfall client` module) and the bulk synchronization engine (`bulk sync`
module) — and proves or refutes the specification claims about them.

Conventions of the embedding:
* JavaScript strings are modelled by Lean `String` / `List Char`; `.length`,
  `slice` and character classes are modelled on Unicode scalar values (all
  characters relevant to the claims are in the Basic Multilingual Plane, where
  the two notions of length agree).
* The store (Prisma/Postgres) is modelled as an explicit `DB` value holding
  the card, face, ruling and sync-run rows; each query and mutation used by
  the source is translated into a pure function on `DB`.
* Wall-clock time, network responses, and the JSON parser are passed in as
  explicit parameters (oracles), so that every run of the engine is a pure
  computation from those inputs.
-/

namespace OracleMint

/-! ### Character classes

`isJsWhitespace` models the JavaScript regular-expression class `\s`
(the WhiteSpace and LineTerminator productions), which is also the set used
by `String.prototype.trim`.  `isWordChar` models `\w` = `[A-Za-z0-9_]`
(ASCII-only, since the source regexes do not use the `u` flag). -/

def isJsWhitespace (c : Char) : Bool :=
  decide (c.toNat = 32 ∨ c.toNat = 9 ∨ c.toNat = 10 ∨ c.toNat = 13 ∨
    c.toNat = 11 ∨ c.toNat = 12 ∨ c.toNat = 160 ∨ c.toNat = 5760 ∨
    (8192 ≤ c.toNat ∧ c.toNat ≤ 8202) ∨ c.toNat = 8232 ∨ c.toNat = 8233 ∨
    c.toNat = 8239 ∨ c.toNat = 8287 ∨ c.toNat = 12288 ∨ c.toNat = 65279)

def isWordChar (c : Char) : Bool :=
  decide ((65 ≤ c.toNat ∧ c.toNat ≤ 90) ∨ (97 ≤ c.toNat ∧ c.toNat ≤ 122) ∨
    (48 ≤ c.toNat ∧ c.toNat ≤ 57) ∨ c.toNat = 95)

/-- Models `String.prototype.toLowerCase` on the character repertoire the
normalizer can observe: ASCII `A`–`Z` and the Latin-1 uppercase letters
`À`–`Þ` (except `×`) are mapped down by 32, all other characters are left
unchanged.  (The full JS lowercasing table covers further scripts, which the
claims never exercise; on every character outside the modelled repertoire the
function is the identity.) -/
def jsToLower (c : Char) : Char :=
  if 65 ≤ c.toNat ∧ c.toNat ≤ 90 then Char.ofNat (c.toNat + 32)
  else if (192 ≤ c.toNat ∧ c.toNat ≤ 214) ∨ (216 ≤ c.toNat ∧ c.toNat ≤ 222) then
    Char.ofNat (c.toNat + 32)
  else c

/-- Models `String.prototype.normalize('NFD')` character by character: each
precomposed Latin-1 lowercase letter decomposes into its base letter followed
by the combining mark; characters without a (modelled) canonical
decomposition map to themselves.  (Uppercase letters never reach this stage
because the source lowercases first.) -/
def nfdChar (c : Char) : List Char :=
  match c with
  | 'à' => ['a', '̀'] | 'á' => ['a', '́']
  | 'â' => ['a', '̂'] | 'ã' => ['a', '̃']
  | 'ä' => ['a', '̈'] | 'å' => ['a', '̊']
  | 'ç' => ['c', '̧']
  | 'è' => ['e', '̀'] | 'é' => ['e', '́']
  | 'ê' => ['e', '̂'] | 'ë' => ['e', '̈']
  | 'ì' => ['i', '̀'] | 'í' => ['i', '́']
  | 'î' => ['i', '̂'] | 'ï' => ['i', '̈']
  | 'ñ' => ['n', '̃']
  | 'ò' => ['o', '̀'] | 'ó' => ['o', '́']
  | 'ô' => ['o', '̂'] | 'õ' => ['o', '̃']
  | 'ö' => ['o', '̈']
  | 'ù' => ['u', '̀'] | 'ú' => ['u', '́']
  | 'û' => ['u', '̂'] | 'ü' => ['u', '̈']
  | 'ý' => ['y', '́'] | 'ÿ' => ['y', '̈']
  | _ => [c]

def nfdList : List Char → List Char
  | [] => []
  | c :: cs => nfdChar c ++ nfdList cs

/-- Combining diacritical marks, the class removed by
`.replace(/[̀-ͯ]/g, '')`. -/
def isCombiningMark (c : Char) : Bool :=
  decide (768 ≤ c.toNat ∧ c.toNat ≤ 879)

/-- Models the curly-apostrophe fold: typographic single quotes
(U+2018, U+2019) become the ASCII apostrophe. -/
def foldApostrophe (c : Char) : Char :=
  if c.toNat = 8216 ∨ c.toNat = 8217 then '\'' else c

/-- The character class kept by the special-character strip: word characters,
whitespace, apostrophe, slash and hyphen (everything else is removed). -/
def keptChar (c : Char) : Bool :=
  isWordChar c || isJsWhitespace c ||
    decide (c.toNat = 39 ∨ c.toNat = 47 ∨ c.toNat = 45)

/-- Models `.replace(/\s+/g, ' ')`: every maximal run of whitespace becomes a
single ASCII space.  The flag records whether the scan is inside a
whitespace run (whose first character already emitted the space). -/
def collapseWsAux : Bool → List Char → List Char
  | _, [] => []
  | inRun, c :: cs =>
    if isJsWhitespace c then
      if inRun then collapseWsAux true cs
      else ' ' :: collapseWsAux true cs
    else c :: collapseWsAux false cs

def collapseWs (l : List Char) : List Char :=
  collapseWsAux false l

/-- Models `String.prototype.trim`: drop leading and trailing whitespace. -/
def trimList (l : List Char) : List Char :=
  ((l.dropWhile isJsWhitespace).reverse.dropWhile isJsWhitespace).reverse

/-- The normalization pipeline of `normalizeName` (card-names.ts, lines 9-18)
on character lists, stage for stage in source order. -/
def normalizeNameList (l : List Char) : List Char :=
  trimList (collapseWs (((nfdList (l.map jsToLower)).filter
    (fun c => !isCombiningMark c)).map foldApostrophe |>.filter keptChar))

/-- Embedding of `normalizeName` (card-names.ts): lower-case, NFD-decompose,
strip combining marks, fold curly apostrophes, strip characters outside the
kept class (word, whitespace, apostrophe, slash, hyphen), collapse whitespace
runs, trim. -/
def normalizeName (s : String) : String :=
  String.mk (normalizeNameList s.data)

/-! ### Face-separator splitting (`parseCardNameVariants`) -/

/-- Does the character list contain `//` as a contiguous subsequence?
Models `String.prototype.includes('//')`. -/
def containsSlashes : List Char → Bool
  | [] => false
  | c :: t => (['/', '/'].isPrefixOf (c :: t)) || containsSlashes t

/-- Models `String.prototype.split('//')`: split on each non-overlapping
occurrence of the two-character separator, scanning left to right.  `acc`
holds the current segment, reversed. -/
def splitSlashes : List Char → List Char → List (List Char)
  | [], acc => [acc.reverse]
  | '/' :: '/' :: t, acc => acc.reverse :: splitSlashes t []
  | c :: t, acc => splitSlashes t (c :: acc)

/-- Order-preserving de-duplication, keeping the first occurrence — models
`[...new Set(variants)]`. -/
def dedupFirstAux (seen : List String) : List String → List String
  | [] => []
  | a :: l =>
    if seen.contains a then dedupFirstAux seen l
    else a :: dedupFirstAux (a :: seen) l

def dedupFirst (l : List String) : List String :=
  dedupFirstAux [] l

/-- Embedding of `parseCardNameVariants` (card-names.ts, lines 24-35). -/
def parseCardNameVariants (input : String) : List String :=
  let normalized := normalizeName input
  let variants :=
    if containsSlashes normalized.data then
      normalized ::
        (splitSlashes normalized.data []).map (fun p => String.mk (trimList p))
    else [normalized]
  dedupFirst variants

/-! ### Data model

Rows of the persistent store, with the columns the source reads and writes.
JS `number` fields (`cmc`, sizes) are only ever copied, never computed with,
so they are carried as opaque integers; date values are carried as their
source strings (`new Date(s)` is modelled by the string `s`), and sync-run
timestamps as abstract `Nat` clock readings. -/

structure ScryfallCardFace where
  name : String
  mana_cost : Option String
  type_line : String
  oracle_text : Option String
  power : Option String
  toughness : Option String
  loyalty : Option String
  defense : Option String
deriving DecidableEq, Repr

structure ScryfallCard where
  id : String
  oracle_id : String
  name : String
  layout : String
  mana_cost : Option String
  cmc : Int
  type_line : String
  oracle_text : Option String
  colors : Option (List String)
  color_identity : List String
  keywords : List String
  released_at : Option String
  rulings_uri : String
  card_faces : Option (List ScryfallCardFace)
deriving DecidableEq, Repr

structure ScryfallRuling where
  oracle_id : String
  source : String
  published_at : String
  comment : String
deriving DecidableEq, Repr

structure CardRow where
  id : Nat
  oracleId : String
  scryfallId : String
  name : String
  normalizedName : String
  layout : String
  manaCost : Option String
  cmc : Int
  typeLine : String
  oracleText : Option String
  colors : List String
  colorIdentity : List String
  keywords : List String
  releasedAt : Option String
deriving DecidableEq, Repr

structure CardFaceRow where
  cardId : Nat
  faceIndex : Nat
  name : String
  normalizedName : String
  manaCost : Option String
  typeLine : String
  oracleText : Option String
  power : Option String
  toughness : Option String
  loyalty : Option String
  defense : Option String
deriving DecidableEq, Repr

structure RulingRow where
  oracleId : String
  publishedAt : String
  comment : String
  source : String
deriving DecidableEq, Repr

inductive SyncStatus where
  | DOWNLOADING
  | PROCESSING
  | PAUSED
  | COMPLETED
  | FAILED
deriving DecidableEq, Repr

structure SyncRunRow where
  id : String
  type : String
  status : SyncStatus
  processed : Nat
  failed : Nat
  lastOracleId : Option String
  blobUrl : Option String
  blobSize : Option Int
  totalRecords : Option Nat
  startedAt : Option Nat
  completedAt : Option Nat
  errorMessage : Option String
deriving DecidableEq, Repr

/-- The persistent store: card, face, ruling and sync-run tables, plus the
next autoincrement id for card rows.  Prisma `create` appends a row;
`update`/`upsert` replaces the matching row in place. -/
structure DB where
  cards : List CardRow
  faces : List CardFaceRow
  rulings : List RulingRow
  syncRuns : List SyncRunRow
  nextCardId : Nat
deriving DecidableEq, Repr

def DB.findSyncRun (db : DB) (runId : String) : Option SyncRunRow :=
  db.syncRuns.find? (fun r => r.id == runId)

def DB.updateSyncRun (db : DB) (runId : String) (f : SyncRunRow → SyncRunRow) : DB :=
  { db with syncRuns := db.syncRuns.map (fun r => if r.id == runId then f r else r) }

structure CardWithRelations where
  card : CardRow
  faces : List CardFaceRow
  rulings : List RulingRow
deriving DecidableEq, Repr

/-- Models Prisma `include: { faces: true, rulings: true }` on a card row. -/
def DB.withRelations (db : DB) (c : CardRow) : CardWithRelations :=
  { card := c,
    faces := db.faces.filter (fun f => f.cardId == c.id),
    rulings := db.rulings.filter (fun r => r.oracleId == c.oracleId) }

/-! ### Upserts (shared by resolver and sync engine) -/

/-- The card row written for a Scryfall record.  The source's `create` and
`update` branches write the same scalar fields (the `update` branch omits
`oracleId`, which the `where` clause already fixes to `sc.oracle_id`), so
both are expressed through this one constructor. -/
def cardRowOfScryfall (rowId : Nat) (sc : ScryfallCard) : CardRow :=
  { id := rowId, oracleId := sc.oracle_id, scryfallId := sc.id, name := sc.name,
    normalizedName := normalizeName sc.name, layout := sc.layout,
    manaCost := sc.mana_cost, cmc := sc.cmc, typeLine := sc.type_line,
    oracleText := sc.oracle_text, colors := sc.colors.getD [],
    colorIdentity := sc.color_identity, keywords := sc.keywords,
    releasedAt := sc.released_at }

/-- Models `db.card.upsert({ where: { oracleId }, create, update })`. -/
def DB.upsertCardRow (db : DB) (sc : ScryfallCard) : CardRow × DB :=
  match db.cards.find? (fun c => c.oracleId == sc.oracle_id) with
  | some old =>
    let updated := cardRowOfScryfall old.id sc
    let newCards := db.cards.map
      (fun c => if c.oracleId == sc.oracle_id then updated else c)
    (updated, { db with cards := newCards })
  | none =>
    let created := cardRowOfScryfall db.nextCardId sc
    (created, { db with cards := db.cards ++ [created],
                        nextCardId := db.nextCardId + 1 })

def faceRowOf (cardId : Nat) (i : Nat) (f : ScryfallCardFace) : CardFaceRow :=
  { cardId := cardId, faceIndex := i, name := f.name,
    normalizedName := normalizeName f.name, manaCost := f.mana_cost,
    typeLine := f.type_line, oracleText := f.oracle_text, power := f.power,
    toughness := f.toughness, loyalty := f.loyalty, defense := f.defense }

/-- Models `cardFace.deleteMany({ where: { cardId } })` followed by one
`cardFace.create` per incoming face, with 0-based indices in input order. -/
def replaceFaces (db : DB) (cardId : Nat) (fs : List ScryfallCardFace) : DB :=
  { db with faces := db.faces.filter (fun f => !(f.cardId == cardId)) ++
      fs.enum.map (fun p => faceRowOf cardId p.1 p.2) }

/-- Embedding of `upsertCard` (bulk sync module): upsert the card row; when
the record carries a non-empty `card_faces` array, delete that card's face
rows and re-create them. -/
def upsertCard (db : DB) (sc : ScryfallCard) : DB :=
  let res := db.upsertCardRow sc
  match sc.card_faces with
  | some fs => if fs.length > 0 then replaceFaces res.2 res.1.id fs else res.2
  | none => res.2

/-- Embedding of `upsertCardFromScryfall` (card-resolver module): the same
upsert-and-replace-faces logic, returning the card row as well. -/
def upsertCardFromScryfall (db : DB) (sc : ScryfallCard) : CardRow × DB :=
  let res := db.upsertCardRow sc
  match sc.card_faces with
  | some fs =>
    if fs.length > 0 then (res.1, replaceFaces res.2 res.1.id fs) else res
  | none => res

/-- Embedding of `upsertRulings` (card-resolver module): delete the entity's
ruling rows, then insert the incoming ones. -/
def upsertRulings (db : DB) (oracleId : String) (rs : List ScryfallRuling) : DB :=
  { db with rulings := db.rulings.filter (fun r => !(r.oracleId == oracleId)) ++
      rs.map (fun r =>
        { oracleId := oracleId, publishedAt := r.published_at,
          comment := r.comment, source := r.source }) }

/-! ### Card identity resolver -/

inductive ResolveStatus where
  | exact
  | normalized
  | face_match
  | fuzzy
  | ambiguous
  | not_found
deriving DecidableEq, Repr

structure Candidate where
  name : String
  oracleId : String
  typeLine : String
deriving DecidableEq, Repr

structure ResolveResult where
  status : ResolveStatus
  card : Option CardWithRelations
  candidates : Option (List Candidate)
  matchedFace : Option Nat
  input : String
deriving DecidableEq, Repr

/-- The remote Scryfall endpoints the resolver consults.  `cardByName`
models `getCardByName(input, { fuzzy: true })`, with `none` for the 404
miss; thrown `ScryfallError`s (non-2xx after retries) propagate as
exceptions and are outside the modelled outcomes.  `rulingsById` models
`getRulingsByCardId`, with `none` for a thrown error (which the caller
catches and logs). -/
structure RemoteOracle where
  cardByName : String → Option ScryfallCard
  rulingsById : String → Option (List ScryfallRuling)

/-- Embedding of `fetchAndCacheFromScryfall` (card-resolver module). -/
def fetchAndCacheFromScryfall (oracle : RemoteOracle) (db : DB) (input : String) :
    ResolveResult × DB :=
  match oracle.cardByName input with
  | none =>
    ({ status := ResolveStatus.not_found, card := none, candidates := none,
       matchedFace := none, input := input }, db)
  | some sc =>
    let res := upsertCardFromScryfall db sc
    let db1 :=
      match oracle.rulingsById sc.id with
      | some rs =>
        if rs.length > 0 then upsertRulings res.2 sc.oracle_id rs else res.2
      | none => res.2
    let fullCard := (db1.cards.find? (fun c => c.oracleId == res.1.oracleId)).map
      db1.withRelations
    ({ status := ResolveStatus.fuzzy, card := fullCard, candidates := none,
       matchedFace := none, input := input }, db1)

/-- The face-match loop of stage 2: first face row whose normalized name
equals one of the variants, in variant order. -/
def findFaceMatch (db : DB) : List String → Option CardFaceRow
  | [] => none
  | v :: vs =>
    match db.faces.find? (fun f => f.normalizedName == v) with
    | some f => some f
    | none => findFaceMatch db vs

/-- Embedding of `resolveCardName` (card-resolver module): the four-stage
cascade — exact normalized match, face match, prefix scan with
typo-correction and ambiguity handling, Scryfall fallback. -/
def resolveCardName (oracle : RemoteOracle) (db : DB) (input : String) :
    ResolveResult × DB :=
  let variants := parseCardNameVariants input
  let primaryNormalized := variants.headD ""
  match db.cards.find? (fun c => c.normalizedName == primaryNormalized) with
  | some card =>
    ({ status := ResolveStatus.exact, card := some (db.withRelations card),
       candidates := none, matchedFace := none, input := input }, db)
  | none =>
    match findFaceMatch db variants with
    | some face =>
      ({ status := ResolveStatus.face_match,
         card := (db.cards.find? (fun c => c.id == face.cardId)).map db.withRelations,
         candidates := none, matchedFace := some face.faceIndex,
         input := input }, db)
    | none =>
      let pre := primaryNormalized.take (max 3 (primaryNormalized.length / 2))
      let candidates :=
        ((db.cards.filter
            (fun c => pre.data.isPrefixOf c.normalizedName.data)).take 10).map
          (fun c => Candidate.mk c.name c.oracleId c.typeLine)
      if candidates.length > 0 then
        let viaExactCandidate :=
          match candidates.find?
              (fun c => normalizeName c.name == primaryNormalized) with
          | some exactCandidate =>
            match db.cards.find? (fun c => c.oracleId == exactCandidate.oracleId) with
            | some card =>
              some ({ status := ResolveStatus.normalized,
                      card := some (db.withRelations card), candidates := none,
                      matchedFace := none, input := input }, db)
            | none => none
          | none => none
        match viaExactCandidate with
        | some r => r
        | none =>
          if candidates.length > 1 then
            ({ status := ResolveStatus.ambiguous, card := none,
               candidates := some candidates, matchedFace := none,
               input := input }, db)
          else fetchAndCacheFromScryfall oracle db input
      else fetchAndCacheFromScryfall oracle db input

/-! ### Rate-limited external client

`fetchWithBackoff` is modelled as a function of the sequence of outcomes the
underlying `fetch` produces at each loop iteration (`events`), returning the
result together with the trace of `sleep` durations in milliseconds.
`Retry-After` header parsing is modelled as an `Option Nat` (`parseInt(h
or 1)`).  The companion throttle is modelled with idealized time: `sleep d`
advances the clock by exactly `d`. -/

inductive FetchOutcome where
  | resp (status : Nat) (retryAfter : Option Nat)
  | abortError
  | networkError
deriving DecidableEq, Repr

inductive FetchResult where
  | ok (status : Nat)
  | timeoutError
  | transientFailure
  | maxRetriesExceeded
deriving DecidableEq, Repr

/-- The retry loop of `fetchWithBackoff`, with `remaining = retries -
attempt` as the structural fuel.  A 429 response sleeps the suggested wait
(default 1 s) and continues the `for` loop — advancing `attempt`; a non-429
response returns; an abort error raises the timeout error immediately; any
other error re-raises on the last attempt and otherwise sleeps
`1000 * (attempt + 1)` ms and continues. -/
def fetchWithBackoffGo (events : Nat → FetchOutcome) (retries : Nat) :
    Nat → Nat → List Nat → FetchResult × List Nat
  | 0, _, sleeps => (FetchResult.maxRetriesExceeded, sleeps.reverse)
  | remaining + 1, attempt, sleeps =>
    match events attempt with
    | FetchOutcome.resp s retryAfter =>
      if s = 429 then
        fetchWithBackoffGo events retries remaining (attempt + 1)
          ((retryAfter.getD 1) * 1000 :: sleeps)
      else (FetchResult.ok s, sleeps.reverse)
    | FetchOutcome.abortError => (FetchResult.timeoutError, sleeps.reverse)
    | FetchOutcome.networkError =>
      if attempt == retries - 1 then (FetchResult.transientFailure, sleeps.reverse)
      else
        fetchWithBackoffGo events retries remaining (attempt + 1)
          (1000 * (attempt + 1) :: sleeps)

/-- Embedding of `fetchWithBackoff` (scryfall client module); the source's
default retry budget is 3. -/
def fetchWithBackoff (events : Nat → FetchOutcome) (retries : Nat) :
    FetchResult × List Nat :=
  fetchWithBackoffGo events retries retries 0 []

structure RateLimiterState where
  lastRequest : Nat
deriving DecidableEq, Repr

def minDelay : Nat := 100

/-- Embedding of `rateLimiter.throttle` (scryfall client module) under
idealized time: called at instant `now`, it sleeps until `minDelay` has
elapsed since the recorded `lastRequest` timestamp, then records the new
timestamp.  The returned `Nat` is that timestamp — the instant the request
departs. -/
def throttle (st : RateLimiterState) (now : Nat) : Nat × RateLimiterState :=
  let elapsed := now - st.lastRequest
  let depart := if elapsed < minDelay then now + (minDelay - elapsed) else now
  (depart, { lastRequest := depart })

/-! ### Bulk synchronization engine

The streaming loop of `processSyncRun` is a pure function of: the decoded
text chunks delivered by the byte stream (`chunks`), the JSON parser
(`parseCard`, with `none` for a parse exception), the per-record store
outcome (`upsertOk`, modelling the per-card catch in `upsertCardBatch`), and
the time-box predicate (`timeUp k` = "the k-th top-of-loop check found the
55 s budget exceeded").  Structural stream failures (the catch that moves a
run to FAILED) are not modelled; the claims settled here exercise the
flush, pause and completion paths. -/

def BATCH_SIZE : Nat := 500

def MAX_RUNTIME_MS : Nat := 55000

structure SyncProgress where
  syncRunId : String
  status : SyncStatus
  processed : Nat
  totalRecords : Option Nat
  lastOracleId : Option String
deriving DecidableEq, Repr

structure SyncEnv where
  parseCard : String → Option ScryfallCard
  upsertOk : ScryfallCard → Bool
  timeUp : Nat → Bool
  clock : Nat

structure BatchResult where
  success : Nat
  failures : Nat
  db : DB

/-- Embedding of `upsertCardBatch`: upsert each card in order, counting
per-record successes and failures (a failing record leaves the store
unchanged and is only counted). -/
def upsertCardBatch (env : SyncEnv) (db : DB) : List ScryfallCard → BatchResult
  | [] => { success := 0, failures := 0, db := db }
  | c :: cs =>
    if env.upsertOk c then
      let r := upsertCardBatch env (upsertCard db c) cs
      { r with success := r.success + 1 }
    else
      let r := upsertCardBatch env db cs
      { r with failures := r.failures + 1 }

structure SyncLoopState where
  processed : Nat
  failed : Nat
  lastOracleId : Option String
  shouldSkip : Bool
  batch : List ScryfallCard
  buffer : List Char
  db : DB
deriving Repr, DecidableEq

/-- The body of the per-line `for` loop in `processSyncRun`: skip blank and
bracket lines, strip one trailing comma, parse; on parse failure count a
failure; while skipping, drop records until the resume cursor matches
(clearing the flag on the matching record, which is itself dropped);
otherwise accumulate into the batch, remember the record's id, and on a full
batch upsert it and persist the checkpoint. -/
def processLine (env : SyncEnv) (runId : String) (resumeFrom : Option String)
    (st : SyncLoopState) (line : List Char) : SyncLoopState :=
  let t := trimList line
  if t.isEmpty || t = ['['] || t = [']'] then st
  else
    let cleanLine := if t.getLast? == some ',' then t.dropLast else t
    match env.parseCard (String.mk cleanLine) with
    | none => { st with failed := st.failed + 1 }
    | some card =>
      if st.shouldSkip then
        if resumeFrom == some card.oracle_id then { st with shouldSkip := false }
        else st
      else
        let batch := st.batch ++ [card]
        if batch.length ≥ BATCH_SIZE then
          let r := upsertCardBatch env st.db batch
          let processed := st.processed + r.success
          let failed := st.failed + r.failures
          let db := r.db.updateSyncRun runId (fun run =>
            { run with processed := processed, failed := failed,
                       lastOracleId := some card.oracle_id })
          { st with processed := processed, failed := failed,
                    lastOracleId := some card.oracle_id, batch := [], db := db }
        else { st with batch := batch, lastOracleId := some card.oracle_id }

/-- Split a character list on newline characters; models
`String.prototype.split('\n')` (always returns at least one segment). -/
def splitLines : List Char → List (List Char)
  | [] => [[]]
  | c :: t =>
    if c = '\n' then [] :: splitLines t
    else
      match splitLines t with
      | [] => [[c]]
      | h :: r => (c :: h) :: r

/-- One iteration of the chunk loop after a successful read: append the
chunk to the carry-over buffer, split into lines, keep the trailing
incomplete line as the new buffer, and run the per-line loop on the complete
lines. -/
def consumeChunk (env : SyncEnv) (runId : String) (resumeFrom : Option String)
    (st : SyncLoopState) (chunk : List Char) : SyncLoopState :=
  let lines := splitLines (st.buffer ++ chunk)
  let newBuffer := (lines.getLast?).getD []
  (lines.dropLast).foldl (processLine env runId resumeFrom)
    { st with buffer := newBuffer }

/-- The `while (true)` loop of `processSyncRun`: at the top of each
iteration check the time box (pausing with the current counters and cursor
persisted); then read the next chunk; on stream end flush any partial batch
and complete the run (`totalRecords` reported as `processed + failed`). -/
def syncLoop (env : SyncEnv) (runId : String) (resumeFrom : Option String)
    (totalRecords : Option Nat) :
    Nat → SyncLoopState → List (List Char) → SyncProgress × DB
  | k, st, chunks =>
    if env.timeUp k then
      let db := st.db.updateSyncRun runId (fun run =>
        { run with status := SyncStatus.PAUSED, processed := st.processed,
                   failed := st.failed, lastOracleId := st.lastOracleId })
      ({ syncRunId := runId, status := SyncStatus.PAUSED,
         processed := st.processed, totalRecords := totalRecords,
         lastOracleId := st.lastOracleId }, db)
    else
      match chunks with
      | [] =>
        let st1 :=
          if st.batch.length > 0 then
            let r := upsertCardBatch env st.db st.batch
            { st with processed := st.processed + r.success,
                      failed := st.failed + r.failures, db := r.db }
          else st
        let db := st1.db.updateSyncRun runId (fun run =>
          { run with status := SyncStatus.COMPLETED, processed := st1.processed,
                     failed := st1.failed, completedAt := some env.clock })
        ({ syncRunId := runId, status := SyncStatus.COMPLETED,
           processed := st1.processed,
           totalRecords := some (st1.processed + st1.failed),
           lastOracleId := none }, db)
      | chunk :: rest =>
        syncLoop env runId resumeFrom totalRecords (k + 1)
          (consumeChunk env runId resumeFrom st chunk) rest

/-- Embedding of `processSyncRun` (bulk sync module): load the run, require
a blob URL, mark it PROCESSING, and run the streaming loop from the run's
persisted counters, with the skip flag set exactly when a resume cursor is
present.  The local `lastOracleId` starts at `none` on every invocation, as
in the source.  Errors carry the store state at the point of the throw. -/
def processSyncRun (env : SyncEnv) (chunks : List (List Char)) (db : DB)
    (syncRunId : String) : Except (String × DB) (SyncProgress × DB) :=
  match db.findSyncRun syncRunId with
  | none => Except.error ("Invalid sync run", db)
  | some run =>
    match run.blobUrl with
    | none => Except.error ("Invalid sync run", db)
    | some _ =>
      let db1 := db.updateSyncRun syncRunId
        (fun r => { r with status := SyncStatus.PROCESSING })
      Except.ok (syncLoop env syncRunId run.lastOracleId run.totalRecords 0
        { processed := run.processed, failed := run.failed, lastOracleId := none,
          shouldSkip := run.lastOracleId.isSome, batch := [], buffer := [],
          db := db1 } chunks)

structure BulkDataInfo where
  type : String
  updated_at : Nat
  size : Int
  download_uri : String
deriving DecidableEq, Repr

/-- Environment for `startSync`: the sync-loop environment, the manifest
lookup (`getBulkDataUrl`, with `none` for the thrown not-found error), the
id the store assigns to a newly created run, and the current clock. -/
structure StartEnv where
  sync : SyncEnv
  bulkInfo : String → Option BulkDataInfo
  newRunId : String
  now : Nat

/-- The most recent COMPLETED run of the given type — models
`findFirst({ where: { type, status: COMPLETED }, orderBy: { completedAt:
'desc' } })`. -/
def latestCompleted (runs : List SyncRunRow) (ty : String) : Option SyncRunRow :=
  (runs.filter (fun r => r.type == ty && r.status == SyncStatus.COMPLETED)).foldl
    (fun acc r =>
      match acc with
      | none => some r
      | some a => if a.completedAt.getD 0 < r.completedAt.getD 0 then some r
                  else some a) none

/-- Embedding of `startSync` (bulk sync module): resume path (the run must
exist and be PAUSED), freshness short-circuit (unless `force`), and the
create-download-process path. -/
def startSync (env : StartEnv) (chunks : List (List Char)) (db : DB)
    (ty : String) (force : Bool) (resumeId : Option String) :
    Except (String × DB) (SyncProgress × DB) :=
  match resumeId with
  | some rid =>
    match db.findSyncRun rid with
    | none => Except.error ("Sync run not found", db)
    | some run =>
      if run.status = SyncStatus.PAUSED then processSyncRun env.sync chunks db rid
      else Except.error ("Sync run is not paused", db)
  | none =>
    let bulkType := if ty == "full" then "oracle_cards" else ty
    let createAndRun : Except (String × DB) (SyncProgress × DB) :=
      let newRun : SyncRunRow :=
        { id := env.newRunId, type := ty, status := SyncStatus.DOWNLOADING,
          processed := 0, failed := 0, lastOracleId := none, blobUrl := none,
          blobSize := none, totalRecords := none, startedAt := some env.now,
          completedAt := none, errorMessage := none }
      let db1 := { db with syncRuns := db.syncRuns ++ [newRun] }
      match env.bulkInfo bulkType with
      | none =>
        Except.error ("Bulk data type not found",
          db1.updateSyncRun env.newRunId (fun r =>
            { r with status := SyncStatus.FAILED,
                     errorMessage := some "Bulk data type not found" }))
      | some info =>
        let db2 := db1.updateSyncRun env.newRunId (fun r =>
          { r with blobUrl := some info.download_uri,
                   blobSize := some info.size })
        processSyncRun env.sync chunks db2 env.newRunId
    if force then createAndRun
    else
      match latestCompleted db.syncRuns ty with
      | none => createAndRun
      | some lastRun =>
        match env.bulkInfo bulkType with
        | none => Except.error ("Bulk data type not found", db)
        | some info =>
          match lastRun.completedAt with
          | some t =>
            if info.updated_at ≤ t then
              Except.ok
                ({ syncRunId := lastRun.id, status := SyncStatus.COMPLETED,
                   processed := lastRun.processed,
                   totalRecords := lastRun.totalRecords,
                   lastOracleId := none }, db)
            else createAndRun
          | none => createAndRun

/-! ### Auxiliary definitions for the proofs -/

/-- Projection of the store onto everything except the sync-run table; the
catalog effect of a run is compared modulo the checkpoint bookkeeping. -/
def stripSyncRunTable (db : DB) : DB :=
  { db with syncRuns := [] }

/-- The record-processing branch of `processLine` (the path taken for a
parsed record when the skip flag is off), factored out for the loop
lemmas. -/
def nextRecordState (env : SyncEnv) (runId : String) (st : SyncLoopState)
    (card : ScryfallCard) : SyncLoopState :=
  let batch := st.batch ++ [card]
  if batch.length ≥ BATCH_SIZE then
    let r := upsertCardBatch env st.db batch
    let processed := st.processed + r.success
    let failed := st.failed + r.failures
    let db := r.db.updateSyncRun runId (fun run =>
      { run with processed := processed, failed := failed,
                 lastOracleId := some card.oracle_id })
    { st with processed := processed, failed := failed,
              lastOracleId := some card.oracle_id, batch := [], db := db }
  else { st with batch := batch, lastOracleId := some card.oracle_id }

/-- The final partial-batch flush performed on stream end. -/
def finishBatch (env : SyncEnv) (st : SyncLoopState) : SyncLoopState :=
  if st.batch.length > 0 then
    let r := upsertCardBatch env st.db st.batch
    { st with processed := st.processed + r.success,
              failed := st.failed + r.failures, db := r.db }
  else st

/-- The line `line`, fed to the per-line loop, is a record line carrying the
record `r`: after trimming it is neither blank nor a bracket line, and
stripping one trailing comma and parsing yields `r`. -/
abbrev encodes (env : SyncEnv) (line : List Char) (r : ScryfallCard) : Prop :=
  (trimList line).isEmpty = false ∧ trimList line ≠ ['['] ∧
  trimList line ≠ [']'] ∧
  env.parseCard (String.mk
    (if (trimList line).getLast? == some ',' then (trimList line).dropLast
     else trimList line)) = some r

/-- A bulk blob in the source wire format: the opening `[` line, one record
line per element, and the closing `]` line, newline-terminated. -/
def encodeStream (lines : List (List Char)) : List Char :=
  '[' :: '\n' :: lines.foldr (fun l acc => l ++ '\n' :: acc) (']' :: ['\n'])

/-! ### Concrete inputs used by the witnesses and counterexamples -/

/-- A minimal single-faced Scryfall record with the given id. -/
def mkScryCard (oid : String) : ScryfallCard :=
  { id := oid, oracle_id := oid, name := oid, layout := "normal",
    mana_cost := none, cmc := 0, type_line := "Instant", oracle_text := none,
    colors := none, color_identity := [], keywords := [], released_at := none,
    rulings_uri := "", card_faces := none }

/-- A toy JSON parser for the demo runs: the line `rec-X` parses to the
record with id `X`, anything else fails to parse. -/
def demoParse (s : String) : Option ScryfallCard :=
  if ['r', 'e', 'c', '-'].isPrefixOf s.data then
    some (mkScryCard (String.mk (s.data.drop 4)))
  else none

def demoEnvNoPause : SyncEnv :=
  { parseCard := demoParse, upsertOk := fun _ => true,
    timeUp := fun _ => false, clock := 7 }

/-- Time box exceeded from the second top-of-loop check on: the run reads
one chunk and pauses before the next read. -/
def demoEnvPauseAfterOneChunk : SyncEnv :=
  { parseCard := demoParse, upsertOk := fun _ => true,
    timeUp := fun k => decide (0 < k), clock := 7 }

def demoStartEnv : StartEnv :=
  { sync := demoEnvNoPause, bulkInfo := fun _ => none,
    newRunId := "runNew", now := 9 }

def freshRun1 : SyncRunRow :=
  { id := "run1", type := "oracle_cards", status := SyncStatus.PROCESSING,
    processed := 0, failed := 0, lastOracleId := none,
    blobUrl := some "blob-cards", blobSize := none, totalRecords := none,
    startedAt := some 0, completedAt := none, errorMessage := none }

def dbRun1 : DB :=
  { cards := [], faces := [], rulings := [], syncRuns := [freshRun1],
    nextCardId := 0 }

def chunkFirst : List Char := ("[\nrec-o1,\n").data

def chunkFull : List Char := ("[\nrec-o1,\nrec-o2,\n]\n").data

/-- The store after the time-boxed first invocation on `dbRun1` pauses. -/
def dbAfterPause : DB :=
  match processSyncRun demoEnvPauseAfterOneChunk [chunkFirst] dbRun1 "run1" with
  | Except.ok p => p.2
  | Except.error e => e.2

def runPausedX : SyncRunRow :=
  { id := "run3", type := "oracle_cards", status := SyncStatus.PAUSED,
    processed := 5, failed := 0, lastOracleId := some "x1",
    blobUrl := some "blob-cards", blobSize := none, totalRecords := none,
    startedAt := some 0, completedAt := none, errorMessage := none }

def dbRun3 : DB :=
  { cards := [], faces := [], rulings := [], syncRuns := [runPausedX],
    nextCardId := 0 }

def chunkX : List Char := ("[\nrec-x1,\nrec-y1,\n]\n").data

/-- A stored card row with the given name (normalized key derived from the
name, as the store invariant requires). -/
def cardRowNamed (rowId : Nat) (nm : String) (oid : String) : CardRow :=
  { id := rowId, oracleId := oid, scryfallId := oid, name := nm,
    normalizedName := normalizeName nm, layout := "normal", manaCost := none,
    cmc := 0, typeLine := "Instant", oracleText := none, colors := [],
    colorIdentity := [], keywords := [], releasedAt := none }

def dbBrain : DB :=
  { cards := [cardRowNamed 0 "Brainstorm" "bs1", cardRowNamed 1 "Brainstone" "bs2"],
    faces := [], rulings := [], syncRuns := [], nextCardId := 2 }

def dbStone : DB :=
  { cards := [cardRowNamed 0 "Brainstone" "bs2"], faces := [], rulings := [],
    syncRuns := [], nextCardId := 1 }

/-- A remote oracle with no matches (the fuzzy endpoint 404s). -/
def quietOracle : RemoteOracle :=
  { cardByName := fun _ => none, rulingsById := fun _ => none }

def staleFaceRow : CardFaceRow :=
  { cardId := 0, faceIndex := 0, name := "Old Face",
    normalizedName := "old face", manaCost := none, typeLine := "Instant",
    oracleText := none, power := none, toughness := none, loyalty := none,
    defense := none }

def dbStale : DB :=
  { cards := [cardRowNamed 0 "Fire // Ice" "o9"], faces := [staleFaceRow],
    rulings := [], syncRuns := [], nextCardId := 1 }

def mkScryFace (nm : String) : ScryfallCardFace :=
  { name := nm, mana_cost := none, type_line := "Instant", oracle_text := none,
    power := none, toughness := none, loyalty := none, defense := none }

def twoFaceCard : ScryfallCard :=
  { (mkScryCard "o9") with
    name := "Fire // Ice",
    card_faces := some [mkScryFace "Fire", mkScryFace "Ice"] }

/-- The relation "not two whitespace characters in a row", the shape
invariant of collapsed output. -/
def noWsPair (a b : Char) : Prop :=
  ¬(isJsWhitespace a = true ∧ isJsWhitespace b = true)

/-! ## Lemmas about the name normalizer -/

theorem char_toNat_ofNat_of_lt {n : Nat} (h : n < 55296) :
    (Char.ofNat n).toNat = n := by
  have hv : n.isValidChar := Or.inl h
  simp [Char.ofNat, hv, Char.ofNatAux, Char.toNat]
  rfl

theorem jsToLower_eq_self {c : Char} (h1 : ¬(65 ≤ c.toNat ∧ c.toNat ≤ 90))
    (h2 : ¬((192 ≤ c.toNat ∧ c.toNat ≤ 214) ∨ (216 ≤ c.toNat ∧ c.toNat ≤ 222))) :
    jsToLower c = c := by
  unfold jsToLower
  rw [if_neg h1, if_neg h2]

theorem jsToLower_not_upper (c : Char) :
    ¬(65 ≤ (jsToLower c).toNat ∧ (jsToLower c).toNat ≤ 90) := by
  unfold jsToLower
  split
  · next h => rw [char_toNat_ofNat_of_lt (by omega)]; omega
  · split
    · next h h' => rw [char_toNat_ofNat_of_lt (by omega)]; omega
    · next h h' => exact h

theorem nfdChar_eq_self {c : Char} (h : ¬(224 ≤ c.toNat ∧ c.toNat ≤ 255)) :
    nfdChar c = [c] := by
  unfold nfdChar
  split
  all_goals first
    | rfl
    | exact absurd (by decide) h

theorem nfdChar_not_upper {c d : Char} (hc : ¬(65 ≤ c.toNat ∧ c.toNat ≤ 90))
    (hd : d ∈ nfdChar c) : ¬(65 ≤ d.toNat ∧ d.toNat ≤ 90) := by
  unfold nfdChar at hd
  split at hd
  all_goals
    first
      | (simp only [List.mem_cons, List.mem_singleton, List.not_mem_nil,
           or_false] at hd
         rcases hd with rfl | rfl <;> decide)
      | (simp only [List.mem_singleton] at hd; subst hd; exact hc)

theorem mem_nfdList {d : Char} {l : List Char} (h : d ∈ nfdList l) :
    ∃ c ∈ l, d ∈ nfdChar c := by
  induction l with
  | nil => simp [nfdList] at h
  | cons c cs ih =>
    rw [nfdList, List.mem_append] at h
    rcases h with h | h
    · exact ⟨c, by simp, h⟩
    · obtain ⟨e, he, hd⟩ := ih h
      exact ⟨e, by simp [he], hd⟩

theorem nfdList_eq_self {l : List Char} (h : ∀ c ∈ l, nfdChar c = [c]) :
    nfdList l = l := by
  induction l with
  | nil => rfl
  | cons c cs ih =>
    rw [nfdList, h c (by simp), ih (fun x hx => h x (by simp [hx]))]
    rfl

theorem mem_collapseWsAux {c : Char} : ∀ {l : List Char} {b : Bool},
    c ∈ collapseWsAux b l → c ∈ l ∨ c = ' ' := by
  intro l
  induction l with
  | nil => intro b h; simp [collapseWsAux] at h
  | cons x cs ih =>
    intro b h
    rw [collapseWsAux] at h
    by_cases hx : isJsWhitespace x = true
    · rw [if_pos hx] at h
      cases b with
      | true =>
        rcases ih h with h | h
        · exact Or.inl (List.mem_cons_of_mem _ h)
        · exact Or.inr h
      | false =>
        rcases List.mem_cons.mp h with h | h
        · exact Or.inr h
        · rcases ih h with h | h
          · exact Or.inl (List.mem_cons_of_mem _ h)
          · exact Or.inr h
    · rw [if_neg hx] at h
      rcases List.mem_cons.mp h with h | h
      · exact Or.inl (h ▸ List.mem_cons_self _ _)
      · rcases ih h with h | h
        · exact Or.inl (List.mem_cons_of_mem _ h)
        · exact Or.inr h

theorem collapseWsAux_ws_space {c : Char} : ∀ {l : List Char} {b : Bool},
    c ∈ collapseWsAux b l → isJsWhitespace c = true → c = ' ' := by
  intro l
  induction l with
  | nil => intro b h _; simp [collapseWsAux] at h
  | cons x cs ih =>
    intro b h hw
    rw [collapseWsAux] at h
    by_cases hx : isJsWhitespace x = true
    · rw [if_pos hx] at h
      cases b with
      | true => exact ih h hw
      | false =>
        rcases List.mem_cons.mp h with h | h
        · exact h
        · exact ih h hw
    · rw [if_neg hx] at h
      rcases List.mem_cons.mp h with h | h
      · exact absurd (h ▸ hw) hx
      · exact ih h hw

theorem collapseWsAux_true_head : ∀ {cs : List Char} {d : Char},
    (collapseWsAux true cs).head? = some d → isJsWhitespace d = false := by
  intro cs
  induction cs with
  | nil => intro d h; simp [collapseWsAux] at h
  | cons x xs ih =>
    intro d h
    rw [collapseWsAux] at h
    by_cases hx : isJsWhitespace x = true
    · rw [if_pos hx] at h
      exact ih h
    · rw [if_neg hx] at h
      simp only [List.head?_cons, Option.some.injEq] at h
      rw [← h]
      simpa using hx

theorem collapseWsAux_chain : ∀ (l : List Char) (b : Bool),
    (collapseWsAux b l).Chain' noWsPair := by
  intro l
  induction l with
  | nil => intro b; simp [collapseWsAux]
  | cons x cs ih =>
    intro b
    rw [collapseWsAux]
    by_cases hx : isJsWhitespace x = true
    · cases b with
      | true =>
        rw [if_pos hx, if_pos rfl]
        exact ih true
      | false =>
        rw [if_pos hx, if_neg (by simp)]
        rw [List.chain'_cons']
        refine ⟨?_, ih true⟩
        intro d hd hpair
        rw [Option.mem_def] at hd
        rw [collapseWsAux_true_head hd] at hpair
        exact Bool.false_ne_true hpair.2
    · rw [if_neg hx]
      rw [List.chain'_cons']
      refine ⟨?_, ih false⟩
      intro d _ hpair
      exact hx hpair.1

theorem collapseWsAux_eq_self : ∀ {l : List Char},
    (∀ c ∈ l, isJsWhitespace c = true → c = ' ') → l.Chain' noWsPair →
    ∀ {b : Bool}, (b = true → ∀ d, l.head? = some d → isJsWhitespace d = false) →
    collapseWsAux b l = l := by
  intro l
  induction l with
  | nil => intro _ _ b _; rfl
  | cons c cs ih =>
    intro h1 h2 b hb
    rw [collapseWsAux]
    by_cases hc : isJsWhitespace c = true
    · cases b with
      | true => exact absurd hc (by simp [hb rfl c rfl])
      | false =>
        rw [if_pos hc, if_neg (by simp)]
        have hhead : ∀ d, cs.head? = some d → isJsWhitespace d = false := by
          intro d hd
          cases cs with
          | nil => simp at hd
          | cons e es =>
            have hpair := (List.chain'_cons.mp h2).1
            simp at hd
            subst hd
            by_contra hdt
            exact hpair ⟨hc, by simpa using hdt⟩
        rw [ih (fun a ha hw => h1 a (by simp [ha]) hw) (List.Chain'.tail h2)
          (fun _ => hhead), h1 c (by simp) hc]
    · rw [if_neg hc,
        ih (fun a ha hw => h1 a (by simp [ha]) hw) (List.Chain'.tail h2)
          (fun h => absurd h (by simp))]

theorem mem_trimList {c : Char} {l : List Char} (h : c ∈ trimList l) : c ∈ l := by
  unfold trimList at h
  rw [List.mem_reverse] at h
  have h1 := (List.dropWhile_sublist isJsWhitespace).subset h
  rw [List.mem_reverse] at h1
  exact (List.dropWhile_sublist isJsWhitespace).subset h1

theorem trimList_head_not_ws {l : List Char} {d : Char}
    (h : (trimList l).head? = some d) : isJsWhitespace d = false := by
  unfold trimList at h
  rw [List.head?_reverse] at h
  cases ha : l.dropWhile isJsWhitespace with
  | nil => rw [ha] at h; simp at h
  | cons h0 t0 =>
    have hh0 : isJsWhitespace h0 = false := by
      have := List.head?_dropWhile_not isJsWhitespace l
      rw [ha] at this
      simpa using this
    rw [ha] at h
    have hrev : (h0 :: t0).reverse = t0.reverse ++ [h0] := by simp
    rw [hrev, List.dropWhile_append] at h
    by_cases he : (t0.reverse.dropWhile isJsWhitespace).isEmpty
    · rw [if_pos he] at h
      rw [List.dropWhile_cons_of_neg (by simp [hh0])] at h
      simp at h
      rw [← h]
      exact hh0
    · rw [if_neg he] at h
      rw [List.getLast?_concat] at h
      cases h
      exact hh0

theorem trimList_getLast_not_ws {l : List Char} {d : Char}
    (h : (trimList l).getLast? = some d) : isJsWhitespace d = false := by
  unfold trimList at h
  rw [List.getLast?_reverse] at h
  have := List.head?_dropWhile_not isJsWhitespace (l.dropWhile isJsWhitespace).reverse
  rw [h] at this
  simpa using this

theorem trimList_eq_self {l : List Char}
    (hh : ∀ d, l.head? = some d → isJsWhitespace d = false)
    (hl : ∀ d, l.getLast? = some d → isJsWhitespace d = false) :
    trimList l = l := by
  unfold trimList
  have h1 : l.dropWhile isJsWhitespace = l := by
    cases l with
    | nil => rfl
    | cons c t => exact List.dropWhile_cons_of_neg (by simp [hh c rfl])
  rw [h1]
  have h2 : l.reverse.dropWhile isJsWhitespace = l.reverse := by
    cases hr : l.reverse with
    | nil => rfl
    | cons d ds =>
      have hd : l.getLast? = some d := by
        rw [← List.head?_reverse, hr]; rfl
      exact List.dropWhile_cons_of_neg (by simp [hl d hd])
  rw [h2, List.reverse_reverse]

theorem chain'_trimList {l : List Char} (h : l.Chain' noWsPair) :
    (trimList l).Chain' noWsPair := by
  have hsymm : ∀ {m : List Char}, m.Chain' noWsPair → m.Chain' (flip noWsPair) :=
    fun hm => hm.imp (fun _ _ hr hp => hr ⟨hp.2, hp.1⟩)
  have ha : (l.dropWhile isJsWhitespace).Chain' noWsPair := by
    have hsplit := h
    rw [← List.takeWhile_append_dropWhile isJsWhitespace l] at hsplit
    exact (List.chain'_append.mp hsplit).2.1
  have hrev : ((l.dropWhile isJsWhitespace).reverse).Chain' noWsPair := by
    rw [List.chain'_reverse]
    exact hsymm ha
  have hg : (((l.dropWhile isJsWhitespace).reverse).dropWhile
      isJsWhitespace).Chain' noWsPair := by
    have hsplit := hrev
    rw [← List.takeWhile_append_dropWhile isJsWhitespace
      (l.dropWhile isJsWhitespace).reverse] at hsplit
    exact (List.chain'_append.mp hsplit).2.1
  unfold trimList
  rw [List.chain'_reverse]
  exact hsymm hg

theorem mem_normalizeNameList {c : Char} {l : List Char}
    (h : c ∈ normalizeNameList l) :
    keptChar c = true ∧ ¬(65 ≤ c.toNat ∧ c.toNat ≤ 90) := by
  unfold normalizeNameList at h
  have hc := mem_trimList h
  unfold collapseWs at hc
  rcases mem_collapseWsAux hc with hz | hsp
  · have hkept := (List.mem_filter.mp hz).2
    refine ⟨hkept, ?_⟩
    have hz1 := (List.mem_filter.mp hz).1
    rcases List.mem_map.mp hz1 with ⟨d, hd, hfold⟩
    have hd1 := (List.mem_filter.mp hd).1
    rcases mem_nfdList hd1 with ⟨e, he, hde⟩
    rcases List.mem_map.mp he with ⟨f, _, hf⟩
    have hne : ¬(65 ≤ e.toNat ∧ e.toNat ≤ 90) := hf ▸ jsToLower_not_upper f
    have hnd : ¬(65 ≤ d.toNat ∧ d.toNat ≤ 90) := nfdChar_not_upper hne hde
    rw [← hfold]
    unfold foldApostrophe
    split
    · decide
    · exact hnd
  · subst hsp
    exact ⟨by decide, by decide⟩

theorem normalizeNameList_ws_space {c : Char} {l : List Char}
    (h : c ∈ normalizeNameList l) (hw : isJsWhitespace c = true) : c = ' ' := by
  unfold normalizeNameList at h
  have hc := mem_trimList h
  unfold collapseWs at hc
  exact collapseWsAux_ws_space hc hw

theorem normalizeNameList_chain (l : List Char) :
    (normalizeNameList l).Chain' noWsPair := by
  unfold normalizeNameList collapseWs
  exact chain'_trimList (collapseWsAux_chain _ _)

theorem normalizeNameList_head_not_ws {l : List Char} {d : Char}
    (h : (normalizeNameList l).head? = some d) : isJsWhitespace d = false := by
  unfold normalizeNameList at h
  exact trimList_head_not_ws h

theorem normalizeNameList_getLast_not_ws {l : List Char} {d : Char}
    (h : (normalizeNameList l).getLast? = some d) : isJsWhitespace d = false := by
  unfold normalizeNameList at h
  exact trimList_getLast_not_ws h

theorem keptChar_ranges {c : Char} (h : keptChar c = true) :
    (65 ≤ c.toNat ∧ c.toNat ≤ 90) ∨ (97 ≤ c.toNat ∧ c.toNat ≤ 122) ∨
    (48 ≤ c.toNat ∧ c.toNat ≤ 57) ∨ c.toNat = 95 ∨
    c.toNat = 32 ∨ c.toNat = 9 ∨ c.toNat = 10 ∨ c.toNat = 13 ∨
    c.toNat = 11 ∨ c.toNat = 12 ∨ c.toNat = 160 ∨ c.toNat = 5760 ∨
    (8192 ≤ c.toNat ∧ c.toNat ≤ 8202) ∨ c.toNat = 8232 ∨ c.toNat = 8233 ∨
    c.toNat = 8239 ∨ c.toNat = 8287 ∨ c.toNat = 12288 ∨ c.toNat = 65279 ∨
    c.toNat = 39 ∨ c.toNat = 47 ∨ c.toNat = 45 := by
  simp only [keptChar, isWordChar, isJsWhitespace, Bool.or_eq_true,
    decide_eq_true_eq] at h
  omega

theorem normalizeNameList_idem (l : List Char) :
    normalizeNameList (normalizeNameList l) = normalizeNameList l := by
  have hfix : ∀ c ∈ normalizeNameList l,
      keptChar c = true ∧ ¬(65 ≤ c.toNat ∧ c.toNat ≤ 90) :=
    fun c hc => mem_normalizeNameList hc
  have h1 : (normalizeNameList l).map jsToLower = normalizeNameList l := by
    have hall : ∀ c ∈ normalizeNameList l, jsToLower c = id c := by
      intro c hc
      obtain ⟨hk, hup⟩ := hfix c hc
      have hr := keptChar_ranges hk
      exact jsToLower_eq_self hup (by omega)
    rw [List.map_congr_left hall, List.map_id]
  have h2 : nfdList (normalizeNameList l) = normalizeNameList l := by
    apply nfdList_eq_self
    intro c hc
    obtain ⟨hk, _⟩ := hfix c hc
    have hr := keptChar_ranges hk
    exact nfdChar_eq_self (by omega)
  have h3 : (normalizeNameList l).filter (fun c => !isCombiningMark c) =
      normalizeNameList l := by
    rw [List.filter_eq_self]
    intro c hc
    obtain ⟨hk, _⟩ := hfix c hc
    have hr := keptChar_ranges hk
    simp only [isCombiningMark, Bool.not_eq_true', decide_eq_false_iff_not]
    omega
  have h4 : (normalizeNameList l).map foldApostrophe = normalizeNameList l := by
    have hall : ∀ c ∈ normalizeNameList l, foldApostrophe c = id c := by
      intro c hc
      obtain ⟨hk, _⟩ := hfix c hc
      have hr := keptChar_ranges hk
      unfold foldApostrophe
      rw [if_neg (by omega)]
      rfl
    rw [List.map_congr_left hall, List.map_id]
  have h5 : (normalizeNameList l).filter keptChar = normalizeNameList l := by
    rw [List.filter_eq_self]
    exact fun c hc => (hfix c hc).1
  have h6 : collapseWs (normalizeNameList l) = normalizeNameList l := by
    unfold collapseWs
    exact collapseWsAux_eq_self
      (fun c hc hw => normalizeNameList_ws_space hc hw)
      (normalizeNameList_chain l)
      (fun h => absurd h (by simp))
  have h7 : trimList (normalizeNameList l) = normalizeNameList l :=
    trimList_eq_self (fun d hd => normalizeNameList_head_not_ws hd)
      (fun d hd => normalizeNameList_getLast_not_ws hd)
  conv_lhs => rw [normalizeNameList]
  rw [h1, h2, h3, h4, h5, h6, h7]

/-- Claim C7: the name normalizer is idempotent — for every string `x`,
`normalizeName (normalizeName x) = normalizeName x`. -/
theorem normalizeName_idempotent (s : String) :
    normalizeName (normalizeName s) = normalizeName s := by
  unfold normalizeName
  show String.mk (normalizeNameList (normalizeNameList s.data)) = _
  rw [normalizeNameList_idem]

theorem dedupFirstAux_nodup_and_fresh : ∀ (l seen : List String),
    (dedupFirstAux seen l).Nodup ∧ ∀ b ∈ dedupFirstAux seen l, b ∉ seen := by
  intro l
  induction l with
  | nil => intro seen; exact ⟨List.nodup_nil, by simp [dedupFirstAux]⟩
  | cons a l ih =>
    intro seen
    rw [dedupFirstAux]
    by_cases hc : seen.contains a = true
    · rw [if_pos hc]
      exact ih seen
    · rw [if_neg hc]
      have hmem : a ∉ seen := by
        simpa [List.contains, List.elem_eq_mem] using hc
      obtain ⟨hnd, hfresh⟩ := ih (a :: seen)
      refine ⟨List.nodup_cons.mpr ⟨?_, hnd⟩, ?_⟩
      · intro hin
        exact (hfresh a hin) (by simp)
      · intro b hb
        rcases List.mem_cons.mp hb with rfl | hb
        · exact hmem
        · intro hbs
          exact (hfresh b hb) (by simp [hbs])

theorem dedupFirst_nodup (l : List String) : (dedupFirst l).Nodup :=
  (dedupFirstAux_nodup_and_fresh l []).1

theorem dedupFirst_cons (a : String) (l : List String) :
    dedupFirst (a :: l) = a :: dedupFirstAux [a] l := rfl

/-- Claim C8: `parseCardNameVariants` returns the normalized full input
first; on "Fire // Ice" it yields exactly `["fire // ice", "fire", "ice"]`
in that order; and its output never contains duplicates. -/
theorem parseCardNameVariants_spec :
    parseCardNameVariants "Fire // Ice" = ["fire // ice", "fire", "ice"] ∧
    (∀ x : String, (parseCardNameVariants x).head? = some (normalizeName x)) ∧
    (∀ x : String, (parseCardNameVariants x).Nodup) := by
  refine ⟨by decide, ?_, ?_⟩
  · intro x
    unfold parseCardNameVariants
    dsimp only
    by_cases hc : containsSlashes (normalizeName x).data = true
    · rw [if_pos hc, dedupFirst_cons]
      rfl
    · rw [if_neg hc, dedupFirst_cons]
      rfl
  · intro x
    unfold parseCardNameVariants
    dsimp only
    by_cases hc : containsSlashes (normalizeName x).data = true
    · rw [if_pos hc]
      exact dedupFirst_nodup _
    · rw [if_neg hc]
      exact dedupFirst_nodup _

/-! ## Lemmas about the resolver cascade -/

/-- Claim C9: when the exact and face stages miss, the prefix scan yields
more than one candidate, and no candidate's normalized name equals the
primary normalized variant, `resolveCardName` returns `ambiguous` carrying
exactly those candidates (name, oracle id, type line), leaving the store
untouched — it never silently selects one. -/
theorem resolve_ambiguous (oracle : RemoteOracle) (db : DB) (input : String)
    (primary : String) (cands : List Candidate)
    (hPrim : primary = (parseCardNameVariants input).headD "")
    (hCands : cands = ((db.cards.filter (fun c =>
        (primary.take (max 3 (primary.length / 2))).data.isPrefixOf
          c.normalizedName.data)).take 10).map
      (fun c => Candidate.mk c.name c.oracleId c.typeLine))
    (hExact : db.cards.find? (fun c => c.normalizedName == primary) = none)
    (hFace : findFaceMatch db (parseCardNameVariants input) = none)
    (hMany : 1 < cands.length)
    (hNoExact : cands.find? (fun c => normalizeName c.name == primary) = none) :
    resolveCardName oracle db input =
      ({ status := ResolveStatus.ambiguous, card := none,
         candidates := some cands, matchedFace := none, input := input }, db) := by
  subst hPrim
  unfold resolveCardName
  dsimp only
  rw [hExact, hFace, ← hCands]
  dsimp only
  rw [if_pos (by omega), hNoExact]
  dsimp only
  rw [if_pos hMany]

/-- Claim C10: when the exact and face stages miss, the prefix scan yields
exactly one candidate, and that candidate's normalized name differs from the
primary variant, the resolver neither returns `normalized` nor `ambiguous`:
it falls through to the remote fuzzy fallback, returning `not_found` on a
confirmed remote miss and a `fuzzy` result on a remote hit. -/
theorem resolve_single_candidate_falls_through (oracle : RemoteOracle)
    (db : DB) (input : String) (primary : String) (cands : List Candidate)
    (hPrim : primary = (parseCardNameVariants input).headD "")
    (hCands : cands = ((db.cards.filter (fun c =>
        (primary.take (max 3 (primary.length / 2))).data.isPrefixOf
          c.normalizedName.data)).take 10).map
      (fun c => Candidate.mk c.name c.oracleId c.typeLine))
    (hExact : db.cards.find? (fun c => c.normalizedName == primary) = none)
    (hFace : findFaceMatch db (parseCardNameVariants input) = none)
    (hOne : cands.length = 1)
    (hNoExact : cands.find? (fun c => normalizeName c.name == primary) = none) :
    resolveCardName oracle db input = fetchAndCacheFromScryfall oracle db input ∧
    (oracle.cardByName input = none →
      resolveCardName oracle db input =
        ({ status := ResolveStatus.not_found, card := none, candidates := none,
           matchedFace := none, input := input }, db)) ∧
    (∀ sc, oracle.cardByName input = some sc →
      (resolveCardName oracle db input).1.status = ResolveStatus.fuzzy) := by
  subst hPrim
  have hmain : resolveCardName oracle db input =
      fetchAndCacheFromScryfall oracle db input := by
    unfold resolveCardName
    dsimp only
    rw [hExact, hFace, ← hCands]
    dsimp only
    rw [if_pos (by omega), hNoExact]
    dsimp only
    rw [if_neg (by omega)]
  refine ⟨hmain, ?_, ?_⟩
  · intro hmiss
    rw [hmain]
    unfold fetchAndCacheFromScryfall
    rw [hmiss]
  · intro sc hhit
    rw [hmain]
    unfold fetchAndCacheFromScryfall
    rw [hhit]

/-! ## Lemmas about face replacement (claim C5) -/

theorem upsertCardRow_faces (db : DB) (sc : ScryfallCard) :
    (db.upsertCardRow sc).2.faces = db.faces := by
  unfold DB.upsertCardRow
  cases db.cards.find? (fun c => c.oracleId == sc.oracle_id) <;> rfl

theorem upsertCardFromScryfall_snd (db : DB) (sc : ScryfallCard) :
    (upsertCardFromScryfall db sc).2 = upsertCard db sc := by
  unfold upsertCardFromScryfall upsertCard
  cases sc.card_faces with
  | none => rfl
  | some fs =>
    dsimp only
    by_cases h : fs.length > 0
    · rw [if_pos h, if_pos h]
    · rw [if_neg h, if_neg h]

/-- Claim C5 counterexample: the store holds entity `o9` (row id 0) with one
stale face row; upserting a record for `o9` that carries zero faces leaves
the stale face row in place, so the stored face set is not the (empty) face
set of the incoming record. -/
theorem upsert_zero_faces_keeps_stale :
    (mkScryCard "o9").card_faces = none ∧
    (dbStale.upsertCardRow (mkScryCard "o9")).1.id = 0 ∧
    (upsertCard dbStale (mkScryCard "o9")).faces.filter
      (fun f => f.cardId == 0) = [staleFaceRow] := by
  refine ⟨rfl, by decide, by decide⟩

/-- Claim C5 (amended): when the incoming record carries at least one face,
the upsert fully replaces the entity's face set — afterwards the face rows
of the entity are exactly the incoming faces with contiguous 0-based
indices, and face rows of other entities are untouched; when the record
carries zero faces the face table is left entirely unchanged.  The
resolver's `upsertCardFromScryfall` performs the identical store update. -/
theorem upsert_faces_replacement (db : DB) (sc : ScryfallCard) :
    (∀ fs, sc.card_faces = some fs → 0 < fs.length →
      ((upsertCard db sc).faces.filter
          (fun f => f.cardId == (db.upsertCardRow sc).1.id) =
        fs.enum.map (fun p => faceRowOf (db.upsertCardRow sc).1.id p.1 p.2)) ∧
      ((upsertCard db sc).faces.filter
          (fun f => !(f.cardId == (db.upsertCardRow sc).1.id)) =
        db.faces.filter
          (fun f => !(f.cardId == (db.upsertCardRow sc).1.id)))) ∧
    ((sc.card_faces = none ∨ sc.card_faces = some []) →
      (upsertCard db sc).faces = db.faces) ∧
    (upsertCardFromScryfall db sc).2 = upsertCard db sc := by
  refine ⟨?_, ?_, upsertCardFromScryfall_snd db sc⟩
  · intro fs hfs hlen
    unfold upsertCard
    dsimp only
    rw [hfs]
    dsimp only
    rw [if_pos (by omega)]
    unfold replaceFaces
    dsimp only
    rw [upsertCardRow_faces]
    constructor
    · rw [List.filter_append]
      have hleft : (db.faces.filter
          (fun f => !(f.cardId == (db.upsertCardRow sc).1.id))).filter
            (fun f => f.cardId == (db.upsertCardRow sc).1.id) = [] := by
        rw [List.filter_filter]
        apply List.filter_eq_nil_iff.mpr
        intro a _
        cases h : a.cardId == (db.upsertCardRow sc).1.id <;> simp [h]
      have hright : (fs.enum.map (fun p =>
          faceRowOf (db.upsertCardRow sc).1.id p.1 p.2)).filter
            (fun f => f.cardId == (db.upsertCardRow sc).1.id) =
          fs.enum.map (fun p => faceRowOf (db.upsertCardRow sc).1.id p.1 p.2) := by
        apply List.filter_eq_self.mpr
        intro a ha
        rcases List.mem_map.mp ha with ⟨p, _, rfl⟩
        simp [faceRowOf]
      rw [hleft, hright, List.nil_append]
    · rw [List.filter_append]
      have hleft : (db.faces.filter
          (fun f => !(f.cardId == (db.upsertCardRow sc).1.id))).filter
            (fun f => !(f.cardId == (db.upsertCardRow sc).1.id)) =
          db.faces.filter (fun f => !(f.cardId == (db.upsertCardRow sc).1.id)) := by
        rw [List.filter_filter]
        apply List.filter_congr
        intro a _
        cases h : a.cardId == (db.upsertCardRow sc).1.id <;> simp [h]
      have hright : (fs.enum.map (fun p =>
          faceRowOf (db.upsertCardRow sc).1.id p.1 p.2)).filter
            (fun f => !(f.cardId == (db.upsertCardRow sc).1.id)) = [] := by
        apply List.filter_eq_nil_iff.mpr
        intro a ha
        rcases List.mem_map.mp ha with ⟨p, _, rfl⟩
        simp [faceRowOf]
      rw [hleft, hright, List.append_nil]
  · intro h
    unfold upsertCard
    dsimp only
    rcases h with h | h <;> rw [h]
    · exact upsertCardRow_faces db sc
    · dsimp only
      rw [if_neg (by simp)]
      exact upsertCardRow_faces db sc

/-- Witness for C9: with stored entities "Brainstorm" and "Brainstone" and
input "brai", the resolver returns `ambiguous` with both candidates. -/
theorem resolve_ambiguous_witness :
    resolveCardName quietOracle dbBrain "brai" =
      ({ status := ResolveStatus.ambiguous, card := none,
         candidates := some [Candidate.mk "Brainstorm" "bs1" "Instant",
           Candidate.mk "Brainstone" "bs2" "Instant"],
         matchedFace := none, input := "brai" }, dbBrain) :=
  resolve_ambiguous quietOracle dbBrain "brai" "brai"
    [Candidate.mk "Brainstorm" "bs1" "Instant",
     Candidate.mk "Brainstone" "bs2" "Instant"]
    (by decide) (by decide) (by decide) (by decide) (by decide) (by decide)

/-- Witness for C10: with only "Brainstone" stored and input "brainsto"
(one prefix candidate, not an exact normalized match), the resolver falls
through to the remote fallback and, on a remote miss, returns `not_found`. -/
theorem resolve_single_candidate_witness :
    resolveCardName quietOracle dbStone "brainsto" =
      ({ status := ResolveStatus.not_found, card := none, candidates := none,
         matchedFace := none, input := "brainsto" }, dbStone) := by
  have h := resolve_single_candidate_falls_through quietOracle dbStone
    "brainsto" "brainsto" [Candidate.mk "Brainstone" "bs2" "Instant"]
    (by decide) (by decide) (by decide) (by decide) (by decide) (by decide)
  exact h.2.1 rfl

/-- Witness for C5 (amended): upserting the two-faced record for `o9`
replaces the stale face row with exactly the two incoming faces, indexed 0
and 1. -/
theorem upsert_faces_replacement_witness :
    (upsertCard dbStale twoFaceCard).faces.filter
        (fun f => f.cardId == (dbStale.upsertCardRow twoFaceCard).1.id) =
      [mkScryFace "Fire", mkScryFace "Ice"].enum.map
        (fun p => faceRowOf (dbStale.upsertCardRow twoFaceCard).1.id p.1 p.2) :=
  ((upsert_faces_replacement dbStale twoFaceCard).1
    [mkScryFace "Fire", mkScryFace "Ice"] rfl (by decide)).1

/-! ## Lemmas about the rate-limited client -/

/-- Claim C4 counterexample: with the default retry budget of 3, three
consecutive 429 responses (no Retry-After header, so 1 s waits) exhaust the
budget and surface the max-retries failure — a 429 retry does consume a
retry-budget slot, because the `continue` advances the `for` loop's
`attempt` counter. -/
theorem consecutive_429_exhausts_budget :
    fetchWithBackoff (fun _ => FetchOutcome.resp 429 none) 3 =
      (FetchResult.maxRetriesExceeded, [1000, 1000, 1000]) := by decide

theorem fetchWithBackoffGo_all_429 (events : Nat → FetchOutcome)
    (ra : Nat → Option Nat) :
    ∀ (remaining attempt : Nat) (sleeps : List Nat) (retries : Nat),
    (∀ k, attempt ≤ k → k < attempt + remaining →
      events k = FetchOutcome.resp 429 (ra k)) →
    fetchWithBackoffGo events retries remaining attempt sleeps =
      (FetchResult.maxRetriesExceeded,
        sleeps.reverse ++
          (List.range' attempt remaining).map (fun k => (ra k).getD 1 * 1000)) := by
  intro remaining
  induction remaining with
  | zero =>
    intro attempt sleeps retries _
    simp [fetchWithBackoffGo]
  | succ rem ih =>
    intro attempt sleeps retries h
    have hev : events attempt = FetchOutcome.resp 429 (ra attempt) :=
      h attempt (Nat.le_refl _) (by omega)
    rw [fetchWithBackoffGo, hev]
    dsimp only
    rw [if_pos rfl]
    rw [ih (attempt + 1) ((ra attempt).getD 1 * 1000 :: sleeps) retries
      (fun k hk1 hk2 => h k (by omega) (by omega))]
    rw [List.range'_succ]
    simp

/-- Claim C4 (amended): an explicit rate-limit (429) response makes the
client sleep the server-suggested wait (1000 ms per suggested second,
defaulting to 1 s when the Retry-After header is absent) and retry, but the
retry consumes one of the fixed retry-budget slots: a run of `retries`
consecutive 429 responses exhausts the budget and surfaces the max-retries
failure, with the slept waits recorded in order. -/
theorem rate_limit_retries_consume_budget (events : Nat → FetchOutcome)
    (ra : Nat → Option Nat) (retries : Nat)
    (h : ∀ k, k < retries → events k = FetchOutcome.resp 429 (ra k)) :
    fetchWithBackoff events retries =
      (FetchResult.maxRetriesExceeded,
        (List.range retries).map (fun k => (ra k).getD 1 * 1000)) := by
  unfold fetchWithBackoff
  rw [fetchWithBackoffGo_all_429 events ra retries 0 [] retries
    (fun k _ hk2 => h k (by omega))]
  simp [List.range_eq_range']

/-- Witness for C4 (amended): three consecutive 429 responses suggesting a
2 s wait produce three 2000 ms sleeps and the max-retries failure. -/
theorem rate_limit_retries_consume_budget_witness :
    fetchWithBackoff (fun _ => FetchOutcome.resp 429 (some 2)) 3 =
      (FetchResult.maxRetriesExceeded, [2000, 2000, 2000]) :=
  (rate_limit_retries_consume_budget (fun _ => FetchOutcome.resp 429 (some 2))
    (fun _ => some 2) 3 (fun _ _ => rfl)).trans (by decide)

/-- Claim C6 counterexample: the limiter timestamps at departure, not at
completion.  The first call departs at t = 1000 and — taking 50 ms — its
response completes at t = 1050; the next call, issued at t = 1050, departs
at t = 1100, only 50 ms after the previous call completed, violating the
claimed 100 ms spacing from completion. -/
theorem throttle_completion_gap_counterexample :
    (throttle ⟨0⟩ 1000).1 = 1000 ∧
    (throttle (throttle ⟨0⟩ 1000).2 1050).1 = 1100 ∧
    (throttle (throttle ⟨0⟩ 1000).2 1050).1 < 1050 + minDelay := by
  refine ⟨by decide, by decide, by decide⟩

/-- Claim C6 (amended): the throttle enforces the 100 ms minimum interval
between consecutive request departures: each call departs no earlier than
`minDelay` after the recorded last-request timestamp — the departure instant
of the previous request, recorded when that request was issued (not when its
response completed) — and records its own departure as the new timestamp. -/
theorem throttle_min_interval (st : RateLimiterState) (now now' : Nat)
    (h1 : st.lastRequest ≤ now) (h2 : (throttle st now).1 ≤ now') :
    st.lastRequest + minDelay ≤ (throttle st now).1 ∧
    (throttle st now).2.lastRequest = (throttle st now).1 ∧
    (throttle st now).1 + minDelay ≤ (throttle (throttle st now).2 now').1 := by
  have base : ∀ (s : RateLimiterState) (t : Nat), s.lastRequest ≤ t →
      s.lastRequest + minDelay ≤ (throttle s t).1 ∧
      (throttle s t).2.lastRequest = (throttle s t).1 := by
    intro s t ht
    unfold throttle
    dsimp only
    constructor
    · split <;> [skip; skip] <;> unfold minDelay at * <;> omega
    · rfl
  obtain ⟨hb1, hb2⟩ := base st now h1
  have h2' : (throttle st now).2.lastRequest ≤ now' := by rw [hb2]; exact h2
  obtain ⟨hc1, _⟩ := base (throttle st now).2 now' h2'
  exact ⟨hb1, hb2, by rw [← hb2]; exact hc1⟩

/-- Witness for C6 (amended): instantiated at timestamp 0, first call at
t = 1000, second at t = 1050. -/
theorem throttle_min_interval_witness :
    (⟨0⟩ : RateLimiterState).lastRequest + minDelay ≤ (throttle ⟨0⟩ 1000).1 ∧
    (throttle ⟨0⟩ 1000).1 + minDelay ≤
      (throttle (throttle ⟨0⟩ 1000).2 1050).1 := by
  have h := throttle_min_interval ⟨0⟩ 1000 1050 (by decide) (by decide)
  exact ⟨h.1, h.2.2⟩

/-! ## Lemmas about the bulk synchronization engine -/

theorem upsertCardBatch_success (env : SyncEnv) :
    ∀ (cs : List ScryfallCard) (db : DB),
    (upsertCardBatch env db cs).success = cs.countP env.upsertOk := by
  intro cs
  induction cs with
  | nil => intro db; simp [upsertCardBatch]
  | cons c cs ih =>
    intro db
    rw [upsertCardBatch]
    by_cases h : env.upsertOk c
    · rw [if_pos h]
      dsimp only
      rw [ih, List.countP_cons]
      simp [h]
    · rw [if_neg h]
      dsimp only
      rw [ih, List.countP_cons]
      simp [h]

theorem upsertCardBatch_failures (env : SyncEnv) :
    ∀ (cs : List ScryfallCard) (db : DB),
    (upsertCardBatch env db cs).failures =
      cs.countP (fun c => !env.upsertOk c) := by
  intro cs
  induction cs with
  | nil => intro db; simp [upsertCardBatch]
  | cons c cs ih =>
    intro db
    rw [upsertCardBatch]
    by_cases h : env.upsertOk c
    · rw [if_pos h]
      dsimp only
      rw [ih, List.countP_cons]
      simp [h]
    · rw [if_neg h]
      dsimp only
      rw [ih, List.countP_cons]
      simp [h]

theorem upsertCardBatch_db (env : SyncEnv) :
    ∀ (cs : List ScryfallCard) (db : DB),
    (upsertCardBatch env db cs).db =
      (cs.filter env.upsertOk).foldl upsertCard db := by
  intro cs
  induction cs with
  | nil => intro db; simp [upsertCardBatch]
  | cons c cs ih =>
    intro db
    rw [upsertCardBatch]
    by_cases h : env.upsertOk c
    · rw [if_pos h]
      dsimp only
      rw [ih, List.filter_cons_of_pos h]
      rfl
    · rw [if_neg h]
      dsimp only
      rw [ih, List.filter_cons_of_neg (by simp [h])]

theorem stripSyncRunTable_updateSyncRun (db : DB) (i : String)
    (f : SyncRunRow → SyncRunRow) :
    stripSyncRunTable (db.updateSyncRun i f) = stripSyncRunTable db := rfl

theorem stripSyncRunTable_upsertCard (db : DB) (c : ScryfallCard) :
    stripSyncRunTable (upsertCard db c) =
      upsertCard (stripSyncRunTable db) c := by
  unfold upsertCard DB.upsertCardRow replaceFaces stripSyncRunTable
  dsimp only
  cases db.cards.find? (fun x => x.oracleId == c.oracle_id) <;>
    cases c.card_faces <;> dsimp only <;> try rfl
  all_goals split <;> rfl

theorem stripSyncRunTable_foldl (cs : List ScryfallCard) :
    ∀ (db : DB),
    stripSyncRunTable (cs.foldl upsertCard db) =
      cs.foldl upsertCard (stripSyncRunTable db) := by
  induction cs with
  | nil => intro db; rfl
  | cons c cs ih =>
    intro db
    rw [List.foldl_cons, List.foldl_cons, ih, stripSyncRunTable_upsertCard]

theorem nextRecordState_shouldSkip (env : SyncEnv) (runId : String)
    (st : SyncLoopState) (r : ScryfallCard) :
    (nextRecordState env runId st r).shouldSkip = st.shouldSkip := by
  unfold nextRecordState
  dsimp only
  split <;> rfl

theorem nextRecordState_buffer (env : SyncEnv) (runId : String)
    (st : SyncLoopState) (r : ScryfallCard) :
    (nextRecordState env runId st r).buffer = st.buffer := by
  unfold nextRecordState
  dsimp only
  split <;> rfl

theorem processLine_record {env : SyncEnv} {line : List Char}
    {r : ScryfallCard} (runId : String) (resumeFrom : Option String)
    (henc : encodes env line r) {st : SyncLoopState}
    (hskip : st.shouldSkip = false) :
    processLine env runId resumeFrom st line = nextRecordState env runId st r := by
  obtain ⟨h1, h2, h3, h4⟩ := henc
  unfold processLine
  rw [if_neg (by simp [h1, h2, h3])]
  dsimp only
  rw [h4]
  dsimp only
  rw [if_neg (by simp [hskip])]
  rfl

theorem processLine_skip_no_match {env : SyncEnv} {line : List Char}
    {r : ScryfallCard} (runId : String) {X : String}
    (henc : encodes env line r) (hne : r.oracle_id ≠ X)
    {st : SyncLoopState} (hskip : st.shouldSkip = true) :
    processLine env runId (some X) st line = st := by
  obtain ⟨h1, h2, h3, h4⟩ := henc
  unfold processLine
  rw [if_neg (by simp [h1, h2, h3])]
  dsimp only
  rw [h4]
  dsimp only
  have hbeq : ((some X : Option String) == some r.oracle_id) = false := by
    simp only [beq_eq_false_iff_ne, ne_eq, Option.some.injEq]
    exact fun h => hne h.symm
  rw [if_pos (by simp [hskip]), if_neg (by simp [hbeq])]

theorem processLine_skip_match {env : SyncEnv} {line : List Char}
    {r : ScryfallCard} (runId : String) {X : String}
    (henc : encodes env line r) (hX : r.oracle_id = X)
    {st : SyncLoopState} (hskip : st.shouldSkip = true) :
    processLine env runId (some X) st line = { st with shouldSkip := false } := by
  obtain ⟨h1, h2, h3, h4⟩ := henc
  unfold processLine
  rw [if_neg (by simp [h1, h2, h3])]
  dsimp only
  rw [h4]
  dsimp only
  rw [if_pos (by simp [hskip]), if_pos (by simp [hX])]

theorem processLine_structural {env : SyncEnv} {line : List Char}
    (runId : String) (resumeFrom : Option String) (st : SyncLoopState)
    (h : trimList line = [] ∨ trimList line = ['['] ∨ trimList line = [']']) :
    processLine env runId resumeFrom st line = st := by
  unfold processLine
  rcases h with h | h | h <;> rw [if_pos (by simp [h])]

theorem foldl_processLine_records {env : SyncEnv} (runId : String)
    (resumeFrom : Option String) :
    ∀ {lines : List (List Char)} {rs : List ScryfallCard},
    List.Forall₂ (encodes env) lines rs →
    ∀ {st : SyncLoopState}, st.shouldSkip = false →
    lines.foldl (processLine env runId resumeFrom) st =
      rs.foldl (nextRecordState env runId) st := by
  intro lines rs henc
  induction henc with
  | nil => intro st _; rfl
  | cons hl hrest ih =>
    intro st hskip
    rw [List.foldl_cons, List.foldl_cons,
      processLine_record runId resumeFrom hl hskip]
    exact ih (by rw [nextRecordState_shouldSkip]; exact hskip)

theorem foldl_processLine_skip {env : SyncEnv} (runId : String) {X : String} :
    ∀ {lines : List (List Char)} {pre : List ScryfallCard},
    List.Forall₂ (encodes env) lines pre →
    (∀ r ∈ pre, r.oracle_id ≠ X) →
    ∀ {st : SyncLoopState}, st.shouldSkip = true →
    lines.foldl (processLine env runId (some X)) st = st := by
  intro lines pre henc
  induction henc with
  | nil => intro _ st _; rfl
  | cons hl hrest ih =>
    intro hX st hskip
    rw [List.foldl_cons,
      processLine_skip_no_match runId hl (hX _ (by simp)) hskip]
    exact ih (fun r hr => hX r (by simp [hr])) hskip

theorem batch_fold_spec (env : SyncEnv) (runId : String) :
    ∀ (rs : List ScryfallCard) (st : SyncLoopState),
    st.batch.length < BATCH_SIZE →
    (finishBatch env (rs.foldl (nextRecordState env runId) st)).processed =
      st.processed + (st.batch ++ rs).countP env.upsertOk ∧
    (finishBatch env (rs.foldl (nextRecordState env runId) st)).failed =
      st.failed + (st.batch ++ rs).countP (fun c => !env.upsertOk c) ∧
    stripSyncRunTable
        (finishBatch env (rs.foldl (nextRecordState env runId) st)).db =
      stripSyncRunTable
        (((st.batch ++ rs).filter env.upsertOk).foldl upsertCard st.db) := by
  intro rs
  induction rs with
  | nil =>
    intro st _
    rw [List.foldl_nil, List.append_nil]
    unfold finishBatch
    by_cases hb : st.batch.length > 0
    · rw [if_pos hb]
      dsimp only
      exact ⟨by rw [upsertCardBatch_success],
             by rw [upsertCardBatch_failures],
             by rw [upsertCardBatch_db]⟩
    · rw [if_neg hb]
      have hnil : st.batch = [] := List.length_eq_zero.mp (by omega)
      rw [hnil]
      exact ⟨by simp, by simp, by simp⟩
  | cons r rs ih =>
    intro st hlt
    rw [List.foldl_cons]
    by_cases hfull : (st.batch ++ [r]).length ≥ BATCH_SIZE
    · have hst1 : nextRecordState env runId st r =
          { st with
            processed := st.processed +
              (upsertCardBatch env st.db (st.batch ++ [r])).success,
            failed := st.failed +
              (upsertCardBatch env st.db (st.batch ++ [r])).failures,
            lastOracleId := some r.oracle_id, batch := [],
            db := (upsertCardBatch env st.db (st.batch ++ [r])).db.updateSyncRun
              runId (fun run =>
                { run with
                  processed := st.processed +
                    (upsertCardBatch env st.db (st.batch ++ [r])).success,
                  failed := st.failed +
                    (upsertCardBatch env st.db (st.batch ++ [r])).failures,
                  lastOracleId := some r.oracle_id }) } := by
        unfold nextRecordState
        dsimp only
        rw [if_pos hfull]
      obtain ⟨ihp, ihf, ihd⟩ := ih (nextRecordState env runId st r)
        (by rw [hst1]; simp [BATCH_SIZE])
      rw [hst1] at ihp ihf ihd
      dsimp only at ihp ihf ihd
      rw [hst1]
      refine ⟨?_, ?_, ?_⟩
      · rw [ihp, upsertCardBatch_success]
        by_cases hok : env.upsertOk r = true <;>
          simp [List.countP_append, List.countP_cons, hok] <;> omega
      · rw [ihf, upsertCardBatch_failures]
        by_cases hok : env.upsertOk r = true <;>
          simp [List.countP_append, List.countP_cons, hok] <;> omega
      · rw [ihd, upsertCardBatch_db]
        rw [stripSyncRunTable_foldl, stripSyncRunTable_foldl,
          stripSyncRunTable_updateSyncRun, stripSyncRunTable_foldl,
          ← List.foldl_append]
        rw [← List.filter_append, List.nil_append, List.append_assoc,
          List.singleton_append]
    · have hst1 : nextRecordState env runId st r =
          { st with batch := st.batch ++ [r],
                    lastOracleId := some r.oracle_id } := by
        unfold nextRecordState
        dsimp only
        rw [if_neg hfull]
      obtain ⟨ihp, ihf, ihd⟩ := ih (nextRecordState env runId st r)
        (by rw [hst1]; dsimp only; omega)
      rw [hst1] at ihp ihf ihd
      dsimp only at ihp ihf ihd
      rw [hst1]
      refine ⟨?_, ?_, ?_⟩
      · rw [ihp, List.append_assoc, List.singleton_append]
      · rw [ihf, List.append_assoc, List.singleton_append]
      · rw [ihd, List.append_assoc, List.singleton_append]

theorem splitLines_newline_terminated :
    ∀ (l rest : List Char), '\n' ∉ l →
    splitLines (l ++ '\n' :: rest) = l :: splitLines rest := by
  intro l
  induction l with
  | nil =>
    intro rest _
    rw [List.nil_append, splitLines, if_pos rfl]
  | cons c cs ih =>
    intro rest hnl
    rw [List.cons_append, splitLines,
      if_neg (fun h => hnl (by simp [h])),
      ih rest (fun h => hnl (List.mem_cons_of_mem _ h))]

theorem splitLines_body :
    ∀ (lines : List (List Char)), (∀ l ∈ lines, '\n' ∉ l) →
    splitLines (lines.foldr (fun l acc => l ++ '\n' :: acc) (']' :: ['\n'])) =
      lines ++ [[']'], []] := by
  intro lines
  induction lines with
  | nil => intro _; rfl
  | cons l ls ih =>
    intro h
    rw [List.foldr_cons,
      splitLines_newline_terminated _ _ (h l (by simp)),
      ih (fun a ha => h a (by simp [ha]))]
    rfl

theorem splitLines_encodeStream (lines : List (List Char))
    (h : ∀ l ∈ lines, '\n' ∉ l) :
    splitLines (encodeStream lines) = ['['] :: (lines ++ [[']'], []]) := by
  unfold encodeStream
  rw [splitLines, if_neg (by decide)]
  rw [show splitLines ('\n' ::
      lines.foldr (fun l acc => l ++ '\n' :: acc) (']' :: ['\n'])) =
      [] :: splitLines
        (lines.foldr (fun l acc => l ++ '\n' :: acc) (']' :: ['\n'])) from by
    rw [splitLines, if_pos rfl]]
  rw [splitLines_body lines h]

theorem consumeChunk_encodeStream (env : SyncEnv) (runId : String)
    (resumeFrom : Option String) (lines : List (List Char))
    (hnl : ∀ l ∈ lines, '\n' ∉ l) (st : SyncLoopState) (hbuf : st.buffer = []) :
    consumeChunk env runId resumeFrom st (encodeStream lines) =
      lines.foldl (processLine env runId resumeFrom) st := by
  unfold consumeChunk
  dsimp only
  rw [hbuf, List.nil_append, splitLines_encodeStream lines hnl]
  have hshape : ['['] :: (lines ++ [[']'], []]) =
      (['['] :: (lines ++ [[']']])) ++ [[]] := by simp
  rw [hshape, List.getLast?_concat, List.dropLast_concat]
  dsimp only [Option.getD]
  have hst : { st with buffer := ([] : List Char) } = st := by
    rw [← hbuf]
  rw [hst]
  rw [List.foldl_cons,
    processLine_structural runId resumeFrom st (Or.inr (Or.inl (by decide))),
    List.foldl_append]
  rw [show ([[']']] : List (List Char)).foldl (processLine env runId resumeFrom)
      (lines.foldl (processLine env runId resumeFrom) st) =
      processLine env runId resumeFrom
        (lines.foldl (processLine env runId resumeFrom) st) [']'] from rfl]
  rw [processLine_structural runId resumeFrom _ (Or.inr (Or.inr (by decide)))]

theorem syncLoop_cons (env : SyncEnv) (runId : String)
    (resumeFrom : Option String) (tr : Option Nat) (k : Nat)
    (st : SyncLoopState) (chunk : List Char) (rest : List (List Char))
    (h : env.timeUp k = false) :
    syncLoop env runId resumeFrom tr k st (chunk :: rest) =
      syncLoop env runId resumeFrom tr (k + 1)
        (consumeChunk env runId resumeFrom st chunk) rest := by
  rw [syncLoop, if_neg (by simp [h])]

theorem syncLoop_nil (env : SyncEnv) (runId : String)
    (resumeFrom : Option String) (tr : Option Nat) (k : Nat)
    (st : SyncLoopState) (h : env.timeUp k = false) :
    syncLoop env runId resumeFrom tr k st [] =
      ({ syncRunId := runId, status := SyncStatus.COMPLETED,
         processed := (finishBatch env st).processed,
         totalRecords := some ((finishBatch env st).processed +
           (finishBatch env st).failed),
         lastOracleId := none },
       (finishBatch env st).db.updateSyncRun runId (fun run =>
         { run with status := SyncStatus.COMPLETED,
                    processed := (finishBatch env st).processed,
                    failed := (finishBatch env st).failed,
                    completedAt := some env.clock })) := by
  rw [syncLoop, if_neg (by simp [h])]
  unfold finishBatch
  rfl

theorem processSyncRun_eq (env : SyncEnv) (chunks : List (List Char))
    (db : DB) (rid : String) (run : SyncRunRow) (u : String)
    (hfind : db.findSyncRun rid = some run) (hblob : run.blobUrl = some u) :
    processSyncRun env chunks db rid =
      Except.ok (syncLoop env rid run.lastOracleId run.totalRecords 0
        { processed := run.processed, failed := run.failed,
          lastOracleId := none, shouldSkip := run.lastOracleId.isSome,
          batch := [], buffer := [],
          db := db.updateSyncRun rid
            (fun r => { r with status := SyncStatus.PROCESSING }) } chunks) := by
  unfold processSyncRun
  rw [hfind]
  dsimp only
  rw [hblob]

theorem startSync_resume_eq (env : StartEnv) (chunks : List (List Char))
    (db : DB) (ty : String) (force : Bool) (rid : String) (run : SyncRunRow)
    (hfind : db.findSyncRun rid = some run)
    (hstatus : run.status = SyncStatus.PAUSED) :
    startSync env chunks db ty force (some rid) =
      processSyncRun env.sync chunks db rid := by
  unfold startSync
  dsimp only
  rw [hfind]
  dsimp only
  rw [if_pos hstatus]

/-- Claim C2: resume correctness.  A sync run paused with checkpoint cursor
`X` after committing `run.processed` records (the stream being
`pre ++ [x] ++ post` with `x` the first record whose id is `X`), resumed via
`resumeId`, skips every record up to and including `x` without upserting
them, processes exactly the records after `x`, and completes with
`processed = run.processed + post.length` — the pre-pause count plus the
records processed after the resume, no record counted twice.  The catalog
effect of the resumed run is exactly the upserts of the post-cursor
records. -/
theorem sync_resume_correct (envS : StartEnv) (db : DB) (run : SyncRunRow)
    (rid X ty u : String) (force : Bool)
    (pre post : List ScryfallCard) (x : ScryfallCard)
    (preLines postLines : List (List Char)) (xLine : List Char)
    (hencPre : List.Forall₂ (encodes envS.sync) preLines pre)
    (hencX : encodes envS.sync xLine x)
    (hencPost : List.Forall₂ (encodes envS.sync) postLines post)
    (hNoNl : ∀ l ∈ preLines ++ xLine :: postLines, '\n' ∉ l)
    (hfind : db.findSyncRun rid = some run)
    (hstatus : run.status = SyncStatus.PAUSED)
    (hblob : run.blobUrl = some u)
    (hcursor : run.lastOracleId = some X)
    (hx : x.oracle_id = X)
    (hpre : ∀ r ∈ pre, r.oracle_id ≠ X)
    (htime : ∀ k, envS.sync.timeUp k = false)
    (hok : ∀ r ∈ post, envS.sync.upsertOk r = true) :
    (startSync envS [encodeStream (preLines ++ xLine :: postLines)] db ty
        force (some rid)).toOption.map
      (fun p => (p.1, stripSyncRunTable p.2)) =
    some ({ syncRunId := rid, status := SyncStatus.COMPLETED,
            processed := run.processed + post.length,
            totalRecords := some (run.processed + post.length + run.failed),
            lastOracleId := none },
          stripSyncRunTable (post.foldl upsertCard db)) := by
  rw [startSync_resume_eq envS _ db ty force rid run hfind hstatus]
  rw [processSyncRun_eq envS.sync _ db rid run u hfind hblob]
  rw [hcursor]
  dsimp only [Option.isSome]
  rw [syncLoop_cons _ _ _ _ _ _ _ _ (htime 0)]
  rw [consumeChunk_encodeStream _ _ _ _ hNoNl _ rfl]
  rw [List.foldl_append, List.foldl_cons]
  rw [foldl_processLine_skip rid hencPre hpre rfl]
  rw [processLine_skip_match rid hencX hx rfl]
  rw [foldl_processLine_records rid (some X) hencPost rfl]
  rw [syncLoop_nil _ _ _ _ _ _ (htime 1)]
  obtain ⟨hp, hf, hd⟩ := batch_fold_spec envS.sync rid post
    { processed := run.processed, failed := run.failed, lastOracleId := none,
      shouldSkip := false, batch := [], buffer := [],
      db := db.updateSyncRun rid
        (fun r => { r with status := SyncStatus.PROCESSING }) }
    (by simp [BATCH_SIZE])
  dsimp only at hp hf hd
  rw [List.nil_append] at hp hf hd
  have hcount : post.countP envS.sync.upsertOk = post.length :=
    List.countP_eq_length.mpr (fun a ha => by simp [hok a ha])
  have hzero : post.countP (fun c => !envS.sync.upsertOk c) = 0 := by
    rw [List.countP_eq_zero]
    intro a ha
    simp [hok a ha]
  have hfilter : post.filter envS.sync.upsertOk = post :=
    List.filter_eq_self.mpr (fun a ha => by simp [hok a ha])
  rw [hcount] at hp
  rw [hzero] at hf
  rw [hfilter] at hd
  have hstripR : stripSyncRunTable (post.foldl upsertCard
      (db.updateSyncRun rid
        (fun r => { r with status := SyncStatus.PROCESSING }))) =
      stripSyncRunTable (post.foldl upsertCard db) := by
    rw [stripSyncRunTable_foldl, stripSyncRunTable_updateSyncRun,
      ← stripSyncRunTable_foldl]
  dsimp only [Except.toOption, Option.map]
  refine congrArg some ?_
  rw [Prod.mk.injEq]
  constructor
  · rw [SyncProgress.mk.injEq]
    exact ⟨rfl, rfl, hp, by rw [hp, hf, Nat.add_zero], rfl⟩
  · rw [stripSyncRunTable_updateSyncRun, hd, hstripR]

/-- Witness for C2: run `run3` (5 records committed, cursor `x1`) resumed
over the stream `w1, x1, y1, z1` completes with `processed = 5 + 2` and the
catalog effect of upserting exactly `y1` and `z1`. -/
theorem sync_resume_correct_witness :
    (startSync demoStartEnv
        [encodeStream [("rec-w1,").data, ("rec-x1,").data,
          ("rec-y1,").data, ("rec-z1,").data]]
        dbRun3 "oracle_cards" false (some "run3")).toOption.map
      (fun p => (p.1, stripSyncRunTable p.2)) =
    some ({ syncRunId := "run3", status := SyncStatus.COMPLETED,
            processed := runPausedX.processed + 2,
            totalRecords := some (runPausedX.processed + 2 + runPausedX.failed),
            lastOracleId := none },
          stripSyncRunTable
            ([mkScryCard "y1", mkScryCard "z1"].foldl upsertCard dbRun3)) := by
  have h := sync_resume_correct demoStartEnv dbRun3 runPausedX "run3" "x1"
    "oracle_cards" "blob-cards" false
    [mkScryCard "w1"] [mkScryCard "y1", mkScryCard "z1"] (mkScryCard "x1")
    [("rec-w1,").data] [("rec-y1,").data, ("rec-z1,").data] ("rec-x1,").data
    (List.Forall₂.cons (by decide) List.Forall₂.nil) (by decide)
    (List.Forall₂.cons (by decide)
      (List.Forall₂.cons (by decide) List.Forall₂.nil))
    (by decide) (by decide) rfl rfl rfl rfl (by decide)
    (fun _ => rfl) (fun r _ => rfl)
  exact h

/-- Claim C3 (amended): while resuming, every parsed record is discarded
until the record whose external id equals the checkpoint cursor; that
matching record itself is also discarded (the loop only clears the skip
flag and continues), and the records strictly after it are processed
exactly as in normal, non-resuming processing. -/
theorem resume_skip_discards_through_cursor (env : SyncEnv) (runId X : String)
    (pre post : List ScryfallCard) (x : ScryfallCard)
    (preLines postLines : List (List Char)) (xLine : List Char)
    (st : SyncLoopState)
    (hencPre : List.Forall₂ (encodes env) preLines pre)
    (hencX : encodes env xLine x)
    (hencPost : List.Forall₂ (encodes env) postLines post)
    (hx : x.oracle_id = X)
    (hpre : ∀ r ∈ pre, r.oracle_id ≠ X)
    (hskip : st.shouldSkip = true) :
    (preLines ++ xLine :: postLines).foldl
        (processLine env runId (some X)) st =
      post.foldl (nextRecordState env runId) { st with shouldSkip := false } := by
  rw [List.foldl_append, List.foldl_cons,
    foldl_processLine_skip runId hencPre hpre hskip,
    processLine_skip_match runId hencX hx hskip,
    foldl_processLine_records runId (some X) hencPost rfl]

/-- Witness for C3 (amended): concrete two-record skip prefix and one
processed record. -/
theorem resume_skip_discards_through_cursor_witness :
    ([("rec-w1,").data] ++ ("rec-x1,").data :: [("rec-y1,").data]).foldl
        (processLine demoEnvNoPause "run3" (some "x1"))
        { processed := 5, failed := 0, lastOracleId := none,
          shouldSkip := true, batch := [], buffer := [], db := dbRun3 } =
      [mkScryCard "y1"].foldl (nextRecordState demoEnvNoPause "run3")
        { processed := 5, failed := 0, lastOracleId := none,
          shouldSkip := false, batch := [], buffer := [], db := dbRun3 } :=
  resume_skip_discards_through_cursor demoEnvNoPause "run3" "x1"
    [mkScryCard "w1"] [mkScryCard "y1"] (mkScryCard "x1")
    [("rec-w1,").data] [("rec-y1,").data] ("rec-x1,").data
    { processed := 5, failed := 0, lastOracleId := none,
      shouldSkip := true, batch := [], buffer := [], db := dbRun3 }
    (List.Forall₂.cons (by decide) List.Forall₂.nil) (by decide)
    (List.Forall₂.cons (by decide) List.Forall₂.nil)
    rfl (by decide) rfl

/-- Claim C3 counterexample: resuming run `run3` (cursor `x1`, empty store)
over a stream containing the records `x1` then `y1` completes with
`processed = 6` and the store holding only `y1`: the record whose id equals
the checkpoint cursor is itself discarded without being upserted or
counted — contrary to the claim that the matching record is processed
normally. -/
theorem resume_cursor_record_not_processed :
    (startSync demoStartEnv [chunkX] dbRun3 "oracle_cards" false
        (some "run3")).toOption.map
      (fun p => (p.1.status, p.1.processed,
        p.2.cards.map (fun c => c.oracleId))) =
      some (SyncStatus.COMPLETED, 6, ["y1"]) := by decide

/-- Claim C1 (refuted): at a time-box pause the engine persists a checkpoint
whose cursor refers to a record whose upsert has not been committed.
Starting from an empty store, the run reads one chunk containing record `o1`
(which enters the in-memory batch but is never flushed) and then pauses:
both the returned progress and the persisted run row carry
`lastOracleId = "o1"` with `processed = 0` while the store holds no row for
`o1`; resuming over the full stream then completes with only `o2` stored —
record `o1` is silently lost. -/
theorem pause_checkpoint_ahead_of_commit :
    ((processSyncRun demoEnvPauseAfterOneChunk [chunkFirst] dbRun1
        "run1").toOption.map
      (fun p => (p.1.status, p.1.lastOracleId, p.1.processed, p.2.cards)) =
      some (SyncStatus.PAUSED, some "o1", 0, [])) ∧
    ((dbAfterPause.findSyncRun "run1").map
      (fun r => (r.status, r.lastOracleId, r.processed)) =
      some (SyncStatus.PAUSED, some "o1", 0)) ∧
    ((startSync demoStartEnv [chunkFull] dbAfterPause "oracle_cards" false
        (some "run1")).toOption.map
      (fun p => (p.1.status, p.1.processed,
        p.2.cards.map (fun c => c.oracleId))) =
      some (SyncStatus.COMPLETED, 1, ["o2"])) :=
  ⟨by decide, by decide, by decide⟩

end OracleMint
